import Mathlib

/-!
# Verification of the handy-table rendering engine

Shallow embedding of the core of the `handy-table` repository:
the text wrapping engine, the grid geometry resolver (column widths,
row heights, offsets), the merge-aware line suppressor, the cell
merge/unmerge editor operations, the override-map shifting performed on
row/column removal, and the path perturbation primitive.

JavaScript strings are modelled as `List Char`; JavaScript numbers as `ℚ`
(the code performs only field arithmetic, `min`/`max` and comparisons on
them); `Record<number, number>` objects as association lists with
first-match lookup; `Math.random()` draws as explicit rational inputs;
and the transcendental float functions (`sqrt`, `atan2`, `cos`, `sin`)
of the path primitive as an abstract function model.
-/

namespace HandyTable

/-- JavaScript strings, modelled as lists of characters. -/
abbrev Str := List Char

/-- Prepend a character onto the first piece of a piece list (used to build
up `split` results one character at a time). -/
def consHead (c : Char) : List Str → List Str
  | [] => [[c]]
  | h :: t => (c :: h) :: t

/-- `String.prototype.split` with a single-character separator, as in
`text.split('\n')` and `paragraph.split(' ')`: splitting the empty string
yields `[[]]`, and `n` separators yield `n+1` (possibly empty) pieces. -/
def splitChar (sep : Char) : Str → List Str
  | [] => [[]]
  | ch :: rest =>
    if ch = sep then [] :: splitChar sep rest else consHead ch (splitChar sep rest)

theorem splitChar_ne_nil (sep : Char) (s : Str) : splitChar sep s ≠ [] := by
  cases s with
  | nil => simp [splitChar]
  | cons ch rest =>
    simp only [splitChar]
    by_cases hc : ch = sep
    · simp [hc]
    · rw [if_neg hc]
      cases splitChar sep rest <;> simp [consHead]

theorem exists_splitChar_cons (sep : Char) (s : Str) :
    ∃ a t, splitChar sep s = a :: t := by
  cases h : splitChar sep s with
  | nil => exact absurd h (splitChar_ne_nil sep s)
  | cons a t => exact ⟨a, t, rfl⟩

theorem mem_splitChar_not_mem (sep : Char) (s : Str) :
    ∀ w ∈ splitChar sep s, sep ∉ w := by
  induction s with
  | nil =>
    intro w hw
    simp only [splitChar, List.mem_singleton] at hw
    simp [hw]
  | cons ch rest ih =>
    intro w hw
    obtain ⟨a, t, h⟩ := exists_splitChar_cons sep rest
    simp only [splitChar, h] at hw
    by_cases hc : ch = sep
    · rw [if_pos hc] at hw
      rcases List.mem_cons.mp hw with hw | hw
      · simp [hw]
      · exact ih w (h ▸ hw)
    · rw [if_neg hc, consHead] at hw
      rcases List.mem_cons.mp hw with hw | hw
      · subst hw
        intro hmem
        rcases List.mem_cons.mp hmem with h1 | h1
        · exact hc h1.symm
        · exact ih a (h ▸ List.mem_cons_self a t) h1
      · exact ih w (h ▸ List.mem_cons_of_mem a hw)

theorem splitChar_of_not_mem {sep : Char} {s : Str} (h : sep ∉ s) :
    splitChar sep s = [s] := by
  induction s with
  | nil => rfl
  | cons ch rest ih =>
    have hch : ch ≠ sep := fun he => h (he ▸ List.mem_cons_self ch rest)
    have hrest : sep ∉ rest := fun hm => h (List.mem_cons_of_mem ch hm)
    simp only [splitChar, ih hrest, if_neg hch, consHead]

/-- Splitting across an explicit separator whose right part is
separator-free appends one more piece. -/
theorem splitChar_append_sep {sep : Char} (a : Str) {b : Str} (hb : sep ∉ b) :
    splitChar sep (a ++ sep :: b) = splitChar sep a ++ [b] := by
  induction a with
  | nil =>
    simp only [List.nil_append, splitChar, if_pos rfl, splitChar_of_not_mem hb]
    rfl
  | cons ch a' ih =>
    obtain ⟨h', t', h⟩ := exists_splitChar_cons sep a'
    simp only [List.cons_append, splitChar, List.append_eq]
    rw [ih, h]
    by_cases hc : ch = sep
    · simp [hc]
    · simp [hc, consHead]

/-- Joining pieces back with the separator (the inverse direction of
`splitChar`): `joinSep sep [p₀, p₁, …] = p₀ ++ sep :: p₁ ++ sep :: …`. -/
def joinSep (sep : Char) : List Str → Str
  | [] => []
  | h :: t => h ++ t.flatMap (fun w => sep :: w)

theorem joinSep_splitChar (sep : Char) (s : Str) :
    joinSep sep (splitChar sep s) = s := by
  induction s with
  | nil => rfl
  | cons ch rest ih =>
    obtain ⟨a, t, h⟩ := exists_splitChar_cons sep rest
    rw [h] at ih
    simp only [splitChar, h]
    by_cases hc : ch = sep
    · subst hc
      simp only [if_pos rfl, joinSep, List.flatMap_cons, List.nil_append]
      simpa [joinSep] using ih
    · simp only [if_neg hc, consHead, joinSep, List.cons_append]
      simpa [joinSep] using ih

theorem eq_of_splitChar_singleton {sep : Char} {s w : Str}
    (h : splitChar sep s = [w]) : s = w := by
  have := joinSep_splitChar sep s
  rw [h] at this
  simpa [joinSep] using this.symm

/-! ## Text Wrapping Engine (`wrapText` in `HandDrawnTable`) -/

/-- The greedy word-accumulation loop of `wrapText` on one paragraph:
`cur` is `currentLine`, the remaining words are consumed in order; a word
is appended (with a joining space) while the estimated width
`(currentLine.length + 1 + word.length) * charWidth` stays strictly under
the maximum width, otherwise the current line is flushed and the word
starts a new line. -/
def wrapPara (charWidth maxWidth : ℚ) : Str → List Str → List Str
  | cur, [] => [cur]
  | cur, w :: ws =>
    if ((cur.length + 1 + w.length : ℕ) : ℚ) * charWidth < maxWidth then
      wrapPara charWidth maxWidth (cur ++ ' ' :: w) ws
    else
      cur :: wrapPara charWidth maxWidth w ws

/-- `wrapText(text, maxWidth, fontSize)`: empty text yields no lines;
otherwise the text is split on explicit newlines, an empty paragraph
yields the single-space spacer line, and each non-empty paragraph is
split on spaces and wrapped greedily with
`charWidth = fontSize * 0.55`. -/
def wrapText (text : Str) (maxWidth fontSize : ℚ) : List Str :=
  if text = [] then []
  else
    let charWidth := fontSize * (11 / 20)
    (splitChar '\n' text).flatMap fun para =>
      if para = [] then [[' ']]
      else
        match splitChar ' ' para with
        | [] => []
        | w :: ws => wrapPara charWidth maxWidth w ws

/-- The words of the lines produced by the greedy loop are exactly the
current line's words followed by the remaining words. -/
theorem wrapPara_words (cw mw : ℚ) :
    ∀ (ws : List Str) (cur : Str), (∀ w ∈ ws, ' ' ∉ w) →
      (wrapPara cw mw cur ws).flatMap (splitChar ' ') = splitChar ' ' cur ++ ws := by
  intro ws
  induction ws with
  | nil => intro cur _; simp [wrapPara]
  | cons w ws ih =>
    intro cur hfree
    have hw : ' ' ∉ w := hfree w (List.mem_cons_self w ws)
    have hws : ∀ v ∈ ws, ' ' ∉ v := fun v hv => hfree v (List.mem_cons_of_mem w hv)
    simp only [wrapPara]
    by_cases hfit : ((cur.length + 1 + w.length : ℕ) : ℚ) * cw < mw
    · rw [if_pos hfit, ih _ hws, splitChar_append_sep cur hw, List.append_assoc]
      rfl
    · rw [if_neg hfit]
      simp only [List.flatMap_cons, ih _ hws, splitChar_of_not_mem hw]
      simp

/-- Every line emitted by the greedy loop that still holds two or more
words has estimated width strictly below the maximum: the last word of
such a line was appended under the width test. -/
theorem wrapPara_multiword_lt (cw mw : ℚ) :
    ∀ (ws : List Str) (cur : Str), (∀ w ∈ ws, ' ' ∉ w) →
      (2 ≤ (splitChar ' ' cur).length → ((cur.length : ℕ) : ℚ) * cw < mw) →
      ∀ l ∈ wrapPara cw mw cur ws,
        2 ≤ (splitChar ' ' l).length → ((l.length : ℕ) : ℚ) * cw < mw := by
  intro ws
  induction ws with
  | nil =>
    intro cur _ hcur l hl
    simp only [wrapPara, List.mem_singleton] at hl
    subst hl; exact hcur
  | cons w ws ih =>
    intro cur hfree hcur l hl
    have hw : ' ' ∉ w := hfree w (List.mem_cons_self w ws)
    have hws : ∀ v ∈ ws, ' ' ∉ v := fun v hv => hfree v (List.mem_cons_of_mem w hv)
    simp only [wrapPara] at hl
    by_cases hfit : ((cur.length + 1 + w.length : ℕ) : ℚ) * cw < mw
    · rw [if_pos hfit] at hl
      refine ih (cur ++ ' ' :: w) hws ?_ l hl
      intro _
      have hlen : (cur ++ ' ' :: w).length = cur.length + 1 + w.length := by
        simp only [List.length_append, List.length_cons]
        omega
      rw [hlen]
      exact hfit
    · rw [if_neg hfit] at hl
      rcases List.mem_cons.mp hl with hl | hl
      · subst hl; exact hcur
      · refine ih w hws ?_ l hl
        intro h2
        rw [splitChar_of_not_mem hw] at h2
        simp at h2

theorem length_le_flatMap_sep {sep : Char} :
    ∀ (t : List Str) (w : Str), w ∈ t →
      w.length + 1 ≤ (t.flatMap (fun v => sep :: v)).length := by
  intro t
  induction t with
  | nil => intro w hw; simp at hw
  | cons x xs iht =>
    intro w hw
    simp only [List.flatMap_cons, List.length_append, List.length_cons]
    rcases List.mem_cons.mp hw with hw | hw
    · subst hw; omega
    · have := iht w hw; omega

/-- Any word of a piece list with at least two pieces is strictly shorter
than the joined string. -/
theorem length_lt_joinSep {sep : Char} {pieces : List Str} {w : Str}
    (hw : w ∈ pieces) (h2 : 2 ≤ pieces.length) :
    w.length + 1 ≤ (joinSep sep pieces).length := by
  cases pieces with
  | nil => simp at hw
  | cons h t =>
    simp only [joinSep, List.length_append]
    rcases List.mem_cons.mp hw with hw | hw
    · subst hw
      cases t with
      | nil => simp at h2
      | cons x xs =>
        have : 1 ≤ ((x :: xs).flatMap (fun v => sep :: v)).length := by
          simp [List.flatMap_cons]
        omega
    · have := @length_le_flatMap_sep sep t w hw
      omega

/-- A word whose own estimated width already reaches the maximum is
emitted alone: its line is exactly that word. -/
theorem wrapPara_overflow_alone {cw mw : ℚ} (hcw : 0 < cw) :
    ∀ (ws : List Str) (cur : Str), (∀ w ∈ ws, ' ' ∉ w) →
      (2 ≤ (splitChar ' ' cur).length → ((cur.length : ℕ) : ℚ) * cw < mw) →
      ∀ l ∈ wrapPara cw mw cur ws, ∀ v ∈ splitChar ' ' l,
        mw ≤ ((v.length : ℕ) : ℚ) * cw → l = v := by
  intro ws cur hfree hcur l hl v hv hover
  obtain ⟨a, t, hsplit⟩ := exists_splitChar_cons ' ' l
  cases t with
  | nil =>
    rw [hsplit, List.mem_singleton] at hv
    subst hv
    exact eq_of_splitChar_singleton hsplit
  | cons b t' =>
    exfalso
    have h2 : 2 ≤ (splitChar ' ' l).length := by
      rw [hsplit]
      simp only [List.length_cons]
      omega
    have hlt := wrapPara_multiword_lt cw mw ws cur hfree hcur l hl h2
    have hlen : v.length + 1 ≤ (joinSep ' ' (splitChar ' ' l)).length :=
      length_lt_joinSep hv h2
    rw [joinSep_splitChar] at hlen
    have h1 : ((v.length : ℕ) : ℚ) * cw < ((v.length + 1 : ℕ) : ℚ) * cw := by
      apply mul_lt_mul_of_pos_right _ hcw
      push_cast
      linarith
    have h3 : ((v.length + 1 : ℕ) : ℚ) * cw ≤ ((l.length : ℕ) : ℚ) * cw := by
      apply mul_le_mul_of_nonneg_right _ (le_of_lt hcw)
      exact_mod_cast hlen
    linarith

/-- Convenience: build a modelled string from a Lean string literal. -/
def strL (s : String) : Str := s.toList

/-- C2. For every input string and every positive maximum width and font
size, wrapping never splits a word: the (non-empty) words of the output
lines, concatenated in order, are exactly the (non-empty) words of the
input — so each word appears intact in exactly one output line — and a
word whose own estimated width reaches the maximum is placed alone on
its own line. -/
theorem wrapText_preserves_words (t : Str) (mw fs : ℚ)
    (hmw : 0 < mw) (hfs : 0 < fs) :
    (wrapText t mw fs).flatMap
        (fun l => (splitChar ' ' l).filter (fun w => !w.isEmpty)) =
      (splitChar '\n' t).flatMap
        (fun p => (splitChar ' ' p).filter (fun w => !w.isEmpty)) ∧
    ∀ l ∈ wrapText t mw fs, ∀ w ∈ splitChar ' ' l,
      mw ≤ ((w.length : ℕ) : ℚ) * (fs * (11 / 20)) → l = w := by
  have hcw : 0 < fs * (11 / 20) := by
    apply mul_pos hfs
    norm_num
  constructor
  · by_cases ht : t = []
    · subst ht
      simp [wrapText, splitChar]
    · simp only [wrapText, if_neg ht]
      rw [List.flatMap_assoc]
      apply List.flatMap_congr
      intro p _
      by_cases hp : p = []
      · subst hp
        simp [splitChar, consHead]
      · obtain ⟨w, ws, hsplit⟩ := exists_splitChar_cons ' ' p
        have hfree : ∀ v ∈ w :: ws, ' ' ∉ v := by
          intro v hv
          exact mem_splitChar_not_mem ' ' p v (hsplit ▸ hv)
        have hw : ' ' ∉ w := hfree w (List.mem_cons_self w ws)
        have hws : ∀ v ∈ ws, ' ' ∉ v := fun v hv => hfree v (List.mem_cons_of_mem w hv)
        rw [if_neg hp, hsplit]
        rw [← List.filter_flatMap, wrapPara_words _ mw ws w hws,
          splitChar_of_not_mem hw]
        rfl
  · intro l hl w hw hover
    by_cases ht : t = []
    · rw [ht] at hl
      simp [wrapText] at hl
    · simp only [wrapText, if_neg ht] at hl
      obtain ⟨p, _, hlp⟩ := List.mem_flatMap.mp hl
      by_cases hp : p = []
      · rw [if_pos hp, List.mem_singleton] at hlp
        subst hlp
        have : splitChar ' ' [' '] = [[], []] := by
          simp [splitChar]
        rw [this] at hw
        have hw0 : w = [] := by
          rcases List.mem_cons.mp hw with h1 | h1
          · exact h1
          · simpa using h1
        rw [hw0] at hover
        simp at hover
        linarith
      · obtain ⟨w0, ws, hsplit⟩ := exists_splitChar_cons ' ' p
        rw [if_neg hp, hsplit] at hlp
        have hfree : ∀ v ∈ w0 :: ws, ' ' ∉ v := by
          intro v hv
          exact mem_splitChar_not_mem ' ' p v (hsplit ▸ hv)
        have hw0 : ' ' ∉ w0 := hfree w0 (List.mem_cons_self w0 ws)
        have hws : ∀ v ∈ ws, ' ' ∉ v := fun v hv => hfree v (List.mem_cons_of_mem w0 hv)
        refine wrapPara_overflow_alone hcw ws w0 hws ?_ l hlp w hw hover
        intro h2
        rw [splitChar_of_not_mem hw0] at h2
        simp at h2

/-- Witness for C2 at the spec's example input "The quick brown fox",
maximum width 100 and font size 16. -/
theorem wrapText_preserves_words_witness :
    (0 : ℚ) < 100 ∧ (0 : ℚ) < 16 ∧
      ((wrapText (strL "The quick brown fox") 100 16).flatMap
          (fun l => (splitChar ' ' l).filter (fun w => !w.isEmpty)) =
        (splitChar '\n' (strL "The quick brown fox")).flatMap
          (fun p => (splitChar ' ' p).filter (fun w => !w.isEmpty)) ∧
      ∀ l ∈ wrapText (strL "The quick brown fox") 100 16,
        ∀ w ∈ splitChar ' ' l,
          (100 : ℚ) ≤ ((w.length : ℕ) : ℚ) * (16 * (11 / 20)) → l = w) :=
  ⟨by norm_num, by norm_num,
    wrapText_preserves_words (strL "The quick brown fox") 100 16
      (by norm_num) (by norm_num)⟩

/-! ## Data model (`types.ts`) -/

/-- `TableCell`: id, display text, spans, hidden flag and, for hidden
cells, the owner back-reference. The `default` cell (spans `0`) stands
for the `undefined` produced by out-of-range JavaScript array access. -/
structure TableCell where
  id : Str
  value : Str
  rowSpan : Nat
  colSpan : Nat
  hidden : Bool
  ownerRow : Option Nat
  ownerCol : Option Nat
deriving Repr, DecidableEq

instance : Inhabited TableCell := ⟨⟨[], [], 0, 0, false, none, none⟩⟩

/-- `TableData`: rows of cells. -/
abbrev TableData := List (List TableCell)

/-- `TableConfig`: the style configuration. The two override
`Record<number, number>` objects are modelled as association lists with
first-match lookup. -/
structure TableConfig where
  roughness : ℚ
  bowing : ℚ
  stroke : Str
  strokeWidth : ℚ
  padding : ℚ
  textColor : Str
  fill : Str
  fillColor : Str
  widthScale : ℚ
  customColumnWidths : List (Nat × ℚ)
  customRowHeights : List (Nat × ℚ)
deriving Repr, DecidableEq

/-- Lookup in an override map: `record[k]`, `none` meaning `undefined`. -/
def lookupOv (entries : List (Nat × ℚ)) (k : Nat) : Option ℚ :=
  (entries.find? (fun q => q.1 == k)).map (fun q => q.2)

/-- Number of columns, `data[0].length` (`0` for an empty grid). -/
def colCount (d : TableData) : Nat := (d.headD []).length

/-- The cell stored at row `r`, column `c` (`default` when out of range,
standing for JavaScript `undefined`). -/
def cellAt (d : TableData) (r c : Nat) : TableCell := (d.getD r []).getD c default

/-- `Array.prototype.map` with the element index, starting at `i`. -/
def mapIdxFrom {α β : Type} (f : Nat → α → β) : Nat → List α → List β
  | _, [] => []
  | i, x :: xs => f i x :: mapIdxFrom f (i + 1) xs

theorem length_mapIdxFrom {α β : Type} (f : Nat → α → β) :
    ∀ (i : Nat) (l : List α), (mapIdxFrom f i l).length = l.length := by
  intro i l
  induction l generalizing i with
  | nil => rfl
  | cons x xs ih => simp [mapIdxFrom, ih]

theorem getD_mapIdxFrom {α β : Type} (f : Nat → α → β) :
    ∀ (l : List α) (i j : Nat), j < l.length → ∀ (da : α) (db : β),
      (mapIdxFrom f i l).getD j db = f (i + j) (l.getD j da) := by
  intro l
  induction l with
  | nil => intro i j hj; simp at hj
  | cons x xs ih =>
    intro i j hj da db
    cases j with
    | zero => rfl
    | succ j' =>
      simp only [mapIdxFrom, List.getD_cons_succ]
      rw [ih (i + 1) j' (by simpa using hj) da db]
      congr 1
      omega

/-- Pair every element with its index, starting at `i` (models iterating a
JavaScript array with `forEach((x, i) => …)`). -/
def enumFrom {α : Type} (i : Nat) : List α → List (Nat × α)
  | [] => []
  | x :: xs => (i, x) :: enumFrom (i + 1) xs

theorem snd_mem_of_mem_enumFrom {α : Type} :
    ∀ (l : List α) (i : Nat) (p : Nat × α), p ∈ enumFrom i l → p.2 ∈ l := by
  intro l
  induction l with
  | nil => intro i p hp; simp [enumFrom] at hp
  | cons x xs ih =>
    intro i p hp
    rcases List.mem_cons.mp hp with hp | hp
    · subst hp; exact List.mem_cons_self x xs
    · exact List.mem_cons_of_mem x (ih (i + 1) p hp)

/-! ## Grid Geometry Resolver (`colWidths`, `rowHeights` in
`HandDrawnTable`) -/

/-- Longest explicit-newline-delimited segment length of a cell value
(`Math.max(...cell.value.split('\n').map(s => s.length))`; the piece list
is never empty and all lengths are non-negative, so folding from `0`
computes the same maximum). -/
def maxSegLen (v : Str) : Nat :=
  ((splitChar '\n' v).map List.length).foldl Nat.max 0

/-- Estimated pixel width for a single cell:
`Math.min(250, Math.max(baseCellWidth, maxSegmentLen * 9))`. -/
def estimatedColWidth (v : Str) : ℚ :=
  min 250 (max 120 ((maxSegLen v : ℚ) * 9))

/-- Auto width of column `c`: start from the base width `120` and fold the
estimated widths of every non-hidden, single-column-span cell of the
column, row by row. -/
def autoColWidth (d : TableData) (c : Nat) : ℚ :=
  d.foldl
    (fun acc row =>
      let cell := row.getD c default
      if cell.colSpan = 1 ∧ cell.hidden = false then
        max acc (estimatedColWidth cell.value)
      else acc)
    120

/-- Resolved column widths: auto width, replaced outright by a defined
user override, then scaled by `config.widthScale || 1` (a zero scale
factor is falsy in JavaScript and falls back to `1`). -/
def colWidthsF (d : TableData) (cfg : TableConfig) : List ℚ :=
  if d = [] then []
  else
    (List.range (colCount d)).map fun i =>
      let base :=
        match lookupOv cfg.customColumnWidths i with
        | some cw => cw
        | none => autoColWidth d i
      base * (if cfg.widthScale = 0 then 1 else cfg.widthScale)

/-- Effective width of a cell starting at column `ci` with the given
column span: its own column's width plus the widths of the extra spanned
columns (`colWidths[colIndex]`, then `+= colWidths[colIndex + k]` for
`k = 1 … colSpan - 1`). -/
def effCellWidth (colW : List ℚ) (ci span : Nat) : ℚ :=
  colW.getD ci 0 +
    (List.range (span - 1)).foldl (fun acc k => acc + colW.getD (ci + 1 + k) 0) 0

/-- Number of wrapped lines of one cell at its effective content width
(effective width minus twice the padding, clamped at zero). -/
def lineCountAt (colW : List ℚ) (p fontSize : ℚ) (ci : Nat) (cell : TableCell) : Nat :=
  (wrapText cell.value (max 0 (effCellWidth colW ci cell.colSpan - p * 2)) fontSize).length

/-- Maximum wrapped line count of a row, starting at `1`, skipping hidden
cells and cells spanning more than one row. -/
def autoMaxLines (colW : List ℚ) (p fontSize : ℚ) (row : List TableCell) : Nat :=
  (enumFrom 0 row).foldl
    (fun acc q =>
      if q.2.hidden = true ∨ 1 < q.2.rowSpan then acc
      else Nat.max acc (lineCountAt colW p fontSize q.1 q.2))
    1

/-- Auto height of row `r`:
`max(50, maxLines * fontSize * 1.4 + 2 * padding)` with font size `20`
for the header row and `16` otherwise. -/
def autoRowHeight (colW : List ℚ) (p : ℚ) (r : Nat) (row : List TableCell) : ℚ :=
  let fontSize : ℚ := if r = 0 then 20 else 16
  max 50 ((autoMaxLines colW p fontSize row : ℚ) * (fontSize * (7 / 5)) + p * 2)

/-- Resolved height of row `r`: the code tests the override with
JavaScript truthiness (`if (config.customRowHeights?.[rowIndex])`), so a
stored `0` falls through to the auto height. -/
def rowHeightAt (cfg : TableConfig) (colW : List ℚ) (r : Nat) (row : List TableCell) : ℚ :=
  match lookupOv cfg.customRowHeights r with
  | some h => if h = 0 then autoRowHeight colW cfg.padding r row else h
  | none => autoRowHeight colW cfg.padding r row

/-- Resolved row heights of the whole grid. -/
def rowHeightsF (d : TableData) (cfg : TableConfig) : List ℚ :=
  mapIdxFrom (fun r row => rowHeightAt cfg (colWidthsF d cfg) r row) 0 d

theorem getD_mem_of_lt {α : Type} (l : List α) (dflt : α) (r : Nat)
    (h : r < l.length) : l.getD r dflt ∈ l := by
  rw [List.getD_eq_getElem _ _ h]
  exact List.getElem_mem h

/-- Value of `colWidthsF` at an in-range column. -/
theorem colWidthsF_getD (d : TableData) (cfg : TableConfig) (c : Nat)
    (hc : c < colCount d) :
    (colWidthsF d cfg).getD c 0 =
      (match lookupOv cfg.customColumnWidths c with
       | some cw => cw
       | none => autoColWidth d c) *
        (if cfg.widthScale = 0 then 1 else cfg.widthScale) := by
  have hd : d ≠ [] := by
    intro h
    rw [h] at hc
    simp [colCount] at hc
  rw [colWidthsF, if_neg hd]
  rw [List.getD_eq_getElem _ _ (by simpa using hc)]
  simp [hc]

/-- Value of `rowHeightsF` at an in-range row. -/
theorem rowHeightsF_getD (d : TableData) (cfg : TableConfig) (r : Nat)
    (hr : r < d.length) :
    (rowHeightsF d cfg).getD r 0 =
      rowHeightAt cfg (colWidthsF d cfg) r (d.getD r []) := by
  rw [rowHeightsF, getD_mapIdxFrom _ d 0 r hr [] 0]
  simp

/-- The greedy loop degenerates when the maximum width is non-positive:
no word ever fits, so every word lands on its own line. -/
theorem wrapPara_nonpos {cw mw : ℚ} (hm : mw ≤ 0) (hc : 0 ≤ cw) :
    ∀ (ws : List Str) (cur : Str), wrapPara cw mw cur ws = cur :: ws := by
  intro ws
  induction ws with
  | nil => intro cur; rfl
  | cons w ws ih =>
    intro cur
    rw [wrapPara, if_neg, ih]
    exact not_lt.mpr (le_trans hm (mul_nonneg (Nat.cast_nonneg _) hc))

/-- Two non-positive maximum widths produce identical wrappings. -/
theorem wrapText_nonpos_eq (v : Str) {fs mw mw' : ℚ} (hfs : 0 ≤ fs)
    (h1 : mw ≤ 0) (h2 : mw' ≤ 0) :
    wrapText v mw fs = wrapText v mw' fs := by
  have hcw : 0 ≤ fs * (11 / 20) := mul_nonneg hfs (by norm_num)
  by_cases hv : v = []
  · simp [wrapText, hv]
  · simp only [wrapText, if_neg hv]
    apply List.flatMap_congr
    intro p _
    by_cases hp : p = []
    · simp [hp]
    · obtain ⟨w, ws, hsplit⟩ := exists_splitChar_cons ' ' p
      simp only [if_neg hp, hsplit]
      show wrapPara (fs * (11 / 20)) mw w ws = wrapPara (fs * (11 / 20)) mw' w ws
      rw [wrapPara_nonpos h1 hcw, wrapPara_nonpos h2 hcw]

/-- Clamping the maximum width at zero (as `rowHeights` does with
`Math.max(0, cellWidth - padding * 2)`) does not change the wrapping. -/
theorem wrapText_max0 (v : Str) {fs : ℚ} (x : ℚ) (hfs : 0 ≤ fs) :
    wrapText v (max 0 x) fs = wrapText v x fs := by
  rcases le_or_lt x 0 with hx | hx
  · exact wrapText_nonpos_eq v hfs (by simp [max_eq_left hx]) hx
  · rw [max_eq_right (le_of_lt hx)]

/-- The conditional-max fold of `rowHeights` over an indexed row equals a
plain max-fold over the filtered line counts. -/
theorem foldl_skip_max_eq (g : Nat × TableCell → Nat) :
    ∀ (l : List (Nat × TableCell)) (a : Nat), (∀ q ∈ l, 1 ≤ q.2.rowSpan) →
      l.foldl
          (fun acc q =>
            if q.2.hidden = true ∨ 1 < q.2.rowSpan then acc
            else Nat.max acc (g q)) a
        = (l.filterMap fun q =>
            if q.2.hidden = false ∧ q.2.rowSpan = 1 then some (g q)
            else none).foldl Nat.max a := by
  intro l
  induction l with
  | nil => intro a _; rfl
  | cons q l ih =>
    intro a hall
    have hq : 1 ≤ q.2.rowSpan := hall q (List.mem_cons_self q l)
    have hrest : ∀ p ∈ l, 1 ≤ p.2.rowSpan :=
      fun p hp => hall p (List.mem_cons_of_mem q hp)
    by_cases hh : q.2.hidden = true
    · have hskip : q.2.hidden = true ∨ 1 < q.2.rowSpan := Or.inl hh
      have hkeep : ¬(q.2.hidden = false ∧ q.2.rowSpan = 1) := by
        intro hk
        rw [hk.1] at hh
        exact Bool.false_ne_true hh
      simp only [List.foldl_cons, List.filterMap_cons, if_pos hskip, if_neg hkeep]
      exact ih a hrest
    · have hh' : q.2.hidden = false := Bool.eq_false_iff.mpr hh
      by_cases hs : 1 < q.2.rowSpan
      · have hskip : q.2.hidden = true ∨ 1 < q.2.rowSpan := Or.inr hs
        have hkeep : ¬(q.2.hidden = false ∧ q.2.rowSpan = 1) := by
          intro hk
          omega
        simp only [List.foldl_cons, List.filterMap_cons, if_pos hskip, if_neg hkeep]
        exact ih a hrest
      · have hs1 : q.2.rowSpan = 1 := by omega
        have hskip : ¬(q.2.hidden = true ∨ 1 < q.2.rowSpan) := by
          intro hk
          rcases hk with hk | hk
          · rw [hh'] at hk
            exact Bool.false_ne_true hk
          · omega
        have hkeep : q.2.hidden = false ∧ q.2.rowSpan = 1 := ⟨hh', hs1⟩
        simp only [List.foldl_cons, List.filterMap_cons, if_neg hskip, if_pos hkeep]
        exact ih _ hrest

/-- Auto row height as the specification words it: `max(50,
maxLines × fontSize × 1.4 + 2 × padding)` where `maxLines` is the
maximum — floored at `1` — over the row's non-hidden, row-span-one cells
of the line count of the cell's text wrapped at its effective width
(sum of spanned column widths) minus twice the padding, with font size
`20` on row `0` and `16` otherwise. Stated from the spec's words, to be
compared with `autoRowHeight` translated from the source. -/
def specAutoRowHeight (colW : List ℚ) (p : ℚ) (r : Nat)
    (row : List TableCell) : ℚ :=
  max 50
    (((((enumFrom 0 row).filterMap fun q =>
          if q.2.hidden = false ∧ q.2.rowSpan = 1 then
            some ((wrapText q.2.value
                (effCellWidth colW q.1 q.2.colSpan - p * 2)
                (if r = 0 then (20 : ℚ) else 16)).length)
          else none).foldl Nat.max 1 : ℕ) : ℚ) *
        ((if r = 0 then (20 : ℚ) else 16) * (7 / 5)) + p * 2)

/-- The source's auto row height agrees with the spec's formulation on
every row whose cells all have row-span at least one. -/
theorem autoRowHeight_eq_claim (colW : List ℚ) (p : ℚ) (r : Nat)
    (row : List TableCell) (hspan : ∀ cell ∈ row, 1 ≤ cell.rowSpan) :
    autoRowHeight colW p r row = specAutoRowHeight colW p r row := by
  rw [specAutoRowHeight]
  have hfs : (0 : ℚ) ≤ if r = 0 then (20 : ℚ) else 16 := by
    split <;> norm_num
  rw [autoRowHeight, autoMaxLines]
  rw [foldl_skip_max_eq (fun q =>
    lineCountAt colW p (if r = 0 then (20 : ℚ) else 16) q.1 q.2) (enumFrom 0 row) 1
    (fun q hq => hspan q.2 (snd_mem_of_mem_enumFrom row 0 q hq))]
  have hlist :
      ((enumFrom 0 row).filterMap fun q =>
          if q.2.hidden = false ∧ q.2.rowSpan = 1 then
            some (lineCountAt colW p (if r = 0 then (20 : ℚ) else 16) q.1 q.2)
          else none) =
        ((enumFrom 0 row).filterMap fun q =>
          if q.2.hidden = false ∧ q.2.rowSpan = 1 then
            some ((wrapText q.2.value
                (effCellWidth colW q.1 q.2.colSpan - p * 2)
                (if r = 0 then (20 : ℚ) else 16)).length)
          else none) := by
    apply List.filterMap_congr
    intro q _
    by_cases hcond : q.2.hidden = false ∧ q.2.rowSpan = 1
    · rw [if_pos hcond, if_pos hcond, lineCountAt, wrapText_max0 _ _ hfs]
    · rw [if_neg hcond, if_neg hcond]
  rw [hlist]

/-- The conditional-max fold of `colWidths` over a column's cells equals a
plain max-fold over the filtered estimates. -/
theorem foldl_skip_max_width (est : TableCell → ℚ) :
    ∀ (l : List TableCell) (a : ℚ),
      l.foldl
          (fun acc cell =>
            if cell.colSpan = 1 ∧ cell.hidden = false then max acc (est cell)
            else acc) a
        = ((l.filter fun cell => !cell.hidden && cell.colSpan == 1).map est).foldl
            max a := by
  intro l
  induction l with
  | nil => intro a; rfl
  | cons q l ih =>
    intro a
    by_cases h : q.colSpan = 1 ∧ q.hidden = false
    · have hb : (!q.hidden && q.colSpan == 1) = true := by
        rw [h.1, h.2]
        rfl
      simp only [List.foldl_cons, List.filter_cons, hb, if_pos h, if_true,
        List.map_cons]
      exact ih (max a (est q))
    · have hb : (!q.hidden && q.colSpan == 1) = false := by
        by_cases hh : q.hidden = true
        · rw [hh]
          rfl
        · have hh' : q.hidden = false := Bool.eq_false_iff.mpr hh
          have hcs : q.colSpan ≠ 1 := fun h1 => h ⟨h1, hh'⟩
          rw [hh']
          simp [hcs]
      simp only [List.foldl_cons, List.filter_cons, hb, if_neg h]
      simp only [Bool.false_eq_true, if_false]
      exact ih a

/-- Auto column width as the specification words it: the maximum over the
column's non-hidden, column-span-one cells of the estimated width
`min(250, max(120, segmentLength × 9))`, floored at the base width
`120`. Stated from the spec's words, to be compared with `autoColWidth`
translated from the source. -/
def specAutoColWidth (d : TableData) (c : Nat) : ℚ :=
  (((d.map fun row => row.getD c default).filter
        fun cell => !cell.hidden && cell.colSpan == 1).map
      fun cell => estimatedColWidth cell.value).foldl max 120

/-- The source's auto column width agrees with the spec's formulation. -/
theorem autoColWidth_eq_claim (d : TableData) (c : Nat) :
    autoColWidth d c = specAutoColWidth d c := by
  rw [specAutoColWidth,
    ← foldl_skip_max_width (fun cell => estimatedColWidth cell.value)
      (d.map fun row => row.getD c default) 120,
    List.foldl_map]
  rfl

/-- Cell constructor used by the examples: a plain visible cell with
row-span and column-span one. -/
def mkCell (i v : String) : TableCell := ⟨strL i, strL v, 1, 1, false, none, none⟩

/-- The default style configuration (`DEFAULT_CONFIG` in `App.tsx`). -/
def baseCfg : TableConfig :=
  { roughness := 3 / 2, bowing := 6 / 5, stroke := strL "#2d3748",
    strokeWidth := 2, padding := 10, textColor := strL "#1a202c",
    fill := strL "hachure", fillColor := strL "#60a5fa", widthScale := 1,
    customColumnWidths := [], customRowHeights := [] }

/-- One-cell grid used by several witnesses. -/
def gridOne : TableData := [[mkCell "1" "A"]]

/-- C4 (amended: a zero width scale factor is replaced by `1`, since the
code multiplies by `config.widthScale || 1`). The resolved column width
is the maximum of the per-cell estimates floored at the base width 120,
replaced outright by a defined user override, and finally multiplied by
the global width scale factor — with `0` treated as `1`. -/
theorem colWidth_resolution (d : TableData) (cfg : TableConfig) (c : Nat)
    (hc : c < colCount d) :
    (colWidthsF d cfg).getD c 0 =
      (match lookupOv cfg.customColumnWidths c with
       | some w => w
       | none => specAutoColWidth d c) *
        (if cfg.widthScale = 0 then 1 else cfg.widthScale) := by
  rw [colWidthsF_getD d cfg c hc]
  cases hl : lookupOv cfg.customColumnWidths c with
  | none => simp only [autoColWidth_eq_claim]
  | some w => rfl

/-- Witness for C4's amended resolution rule on the one-cell grid with
the default configuration. -/
theorem colWidth_resolution_witness :
    0 < colCount gridOne ∧
      (colWidthsF gridOne baseCfg).getD 0 0 =
        (match lookupOv baseCfg.customColumnWidths 0 with
         | some w => w
         | none => specAutoColWidth gridOne 0) *
          (if baseCfg.widthScale = 0 then 1 else baseCfg.widthScale) :=
  ⟨by decide, colWidth_resolution gridOne baseCfg 0 (by decide)⟩

/-- Configuration with a zero width scale factor. -/
def cfgScaleZero : TableConfig := { baseCfg with widthScale := 0 }

/-- Counterexample to C4 as stated: with `widthScale = 0` and no
override, the claim predicts a final width of `base × 0 = 0`, but the
code's `config.widthScale || 1` yields the unscaled base width `120`. -/
theorem colWidth_scale_zero_cex :
    cfgScaleZero.widthScale = 0 ∧
    lookupOv cfgScaleZero.customColumnWidths 0 = none ∧
    autoColWidth gridOne 0 = 120 ∧
    (colWidthsF gridOne cfgScaleZero).getD 0 0 ≠
      autoColWidth gridOne 0 * cfgScaleZero.widthScale := by
  have hauto : autoColWidth gridOne 0 = 120 := by
    simp [autoColWidth, gridOne, mkCell, strL, estimatedColWidth, maxSegLen,
      splitChar, consHead]
    norm_num
  refine ⟨rfl, rfl, hauto, ?_⟩
  rw [hauto]
  simp [colWidthsF, cfgScaleZero, baseCfg, gridOne, mkCell, colCount,
    lookupOv, autoColWidth, strL, estimatedColWidth, maxSegLen, splitChar,
    consHead]
  norm_num

/-- C3 (amended: the override test is a JavaScript truthiness check, so a
stored override of `0` is ignored and the auto height is used). A nonzero
override is returned verbatim (not scaled); otherwise the resolved height
is `max(50, maxLines × fontSize × 1.4 + 2 × padding)` with the spec's
`maxLines` formula. -/
theorem rowHeight_resolution (d : TableData) (cfg : TableConfig) (r : Nat)
    (hr : r < d.length)
    (hspan : ∀ row ∈ d, ∀ cell ∈ row, 1 ≤ cell.rowSpan) :
    (∀ h : ℚ, lookupOv cfg.customRowHeights r = some h → h ≠ 0 →
        (rowHeightsF d cfg).getD r 0 = h) ∧
    ((lookupOv cfg.customRowHeights r = none ∨
        lookupOv cfg.customRowHeights r = some 0) →
      (rowHeightsF d cfg).getD r 0 =
        specAutoRowHeight (colWidthsF d cfg) cfg.padding r (d.getD r [])) := by
  have hbase := rowHeightsF_getD d cfg r hr
  have hauto := autoRowHeight_eq_claim (colWidthsF d cfg) cfg.padding r
    (d.getD r []) (hspan _ (getD_mem_of_lt d [] r hr))
  constructor
  · intro h hl hne
    rw [hbase]
    simp [rowHeightAt, hl, hne]
  · intro hcase
    rw [hbase, ← hauto]
    rcases hcase with hl | hl <;> simp [rowHeightAt, hl]

/-- Witness for C3's amended resolution rule on the one-cell grid with
the default configuration (no overrides). -/
theorem rowHeight_resolution_witness :
    0 < gridOne.length ∧
    (∀ row ∈ gridOne, ∀ cell ∈ row, 1 ≤ cell.rowSpan) ∧
    ((∀ h : ℚ, lookupOv baseCfg.customRowHeights 0 = some h → h ≠ 0 →
        (rowHeightsF gridOne baseCfg).getD 0 0 = h) ∧
      ((lookupOv baseCfg.customRowHeights 0 = none ∨
          lookupOv baseCfg.customRowHeights 0 = some 0) →
        (rowHeightsF gridOne baseCfg).getD 0 0 =
          specAutoRowHeight (colWidthsF gridOne baseCfg) baseCfg.padding 0
            (gridOne.getD 0 []))) :=
  ⟨by decide, by decide,
    rowHeight_resolution gridOne baseCfg 0 (by decide) (by decide)⟩

/-- Configuration storing an explicit row-height override of `0`. -/
def cfgRowZero : TableConfig := { baseCfg with customRowHeights := [(0, 0)] }

/-- Counterexample to C3 as stated: a row-height override of `0` exists,
yet the resolved height is not the override (the truthiness test skips
it and the auto height — at least 50 — is used). -/
theorem rowHeight_zero_override_cex :
    lookupOv cfgRowZero.customRowHeights 0 = some 0 ∧
    (rowHeightsF gridOne cfgRowZero).getD 0 0 ≠ 0 := by
  refine ⟨rfl, ?_⟩
  rw [rowHeightsF_getD gridOne cfgRowZero 0 (by decide)]
  have hl : lookupOv cfgRowZero.customRowHeights 0 = some 0 := rfl
  have h50 : (50 : ℚ) ≤
      autoRowHeight (colWidthsF gridOne cfgRowZero) cfgRowZero.padding 0
        (gridOne.getD 0 []) := by
    simp only [autoRowHeight]
    exact le_max_left _ _
  simp only [rowHeightAt, hl]
  intro hcontra
  simp only [if_true] at hcontra
  rw [hcontra] at h50
  norm_num at h50

/-- C10. The two override maps treat a stored `0` asymmetrically: a
row-height override of `0` is falsy and the auto height (at least 50) is
used, while a column-width override of `0` is defined and applied
verbatim, yielding a zero-width column after scaling. -/
theorem zero_override_asymmetry (d : TableData) (cfg : TableConfig)
    (r c : Nat) (hr : r < d.length) (hc : c < colCount d)
    (hr0 : lookupOv cfg.customRowHeights r = some 0)
    (hc0 : lookupOv cfg.customColumnWidths c = some 0) :
    (rowHeightsF d cfg).getD r 0 =
        autoRowHeight (colWidthsF d cfg) cfg.padding r (d.getD r []) ∧
    50 ≤ (rowHeightsF d cfg).getD r 0 ∧
    (colWidthsF d cfg).getD c 0 = 0 := by
  have h1 : (rowHeightsF d cfg).getD r 0 =
      autoRowHeight (colWidthsF d cfg) cfg.padding r (d.getD r []) := by
    rw [rowHeightsF_getD d cfg r hr]
    simp [rowHeightAt, hr0]
  refine ⟨h1, ?_, ?_⟩
  · rw [h1]
    simp only [autoRowHeight]
    exact le_max_left _ _
  · rw [colWidthsF_getD d cfg c hc, hc0]
    simp

/-- Configuration storing `0` in both override maps at index `0`. -/
def cfgBothZero : TableConfig :=
  { baseCfg with customRowHeights := [(0, 0)], customColumnWidths := [(0, 0)] }

/-- Witness for C10 on the one-cell grid with both overrides stored as
`0`. -/
theorem zero_override_asymmetry_witness :
    0 < gridOne.length ∧ 0 < colCount gridOne ∧
    lookupOv cfgBothZero.customRowHeights 0 = some 0 ∧
    lookupOv cfgBothZero.customColumnWidths 0 = some 0 ∧
    ((rowHeightsF gridOne cfgBothZero).getD 0 0 =
        autoRowHeight (colWidthsF gridOne cfgBothZero) cfgBothZero.padding 0
          (gridOne.getD 0 []) ∧
      50 ≤ (rowHeightsF gridOne cfgBothZero).getD 0 0 ∧
      (colWidthsF gridOne cfgBothZero).getD 0 0 = 0) :=
  ⟨by decide, by decide, rfl, rfl,
    zero_override_asymmetry gridOne cfgBothZero 0 0 (by decide) (by decide)
      rfl rfl⟩

/-! ## Row/column removal and override re-keying (`removeRow`,
`removeCol` in `DataEditor`) -/

/-- Re-key an override map after removing index `index`: entries below
the removed index are kept, entries above shift down by one, the entry at
the removed index is dropped (the `Object.keys` loop of `removeRow` /
`removeCol`). -/
def shiftKeys (index : Nat) (entries : List (Nat × ℚ)) : List (Nat × ℚ) :=
  entries.filterMap fun q =>
    if q.1 < index then some q
    else if index < q.1 then some (q.1 - 1, q.2)
    else none

/-- `removeRow(index)`: drop the row and re-key the row-height
overrides. -/
def removeRow (d : TableData) (cfg : TableConfig) (index : Nat) :
    TableData × TableConfig :=
  (d.eraseIdx index,
   { cfg with customRowHeights := shiftKeys index cfg.customRowHeights })

/-- `removeCol(index)`: drop the column from every row (collapsing to the
empty grid when nothing is left) and re-key the column-width
overrides. -/
def removeCol (d : TableData) (cfg : TableConfig) (index : Nat) :
    TableData × TableConfig :=
  let newData := d.map fun row => row.eraseIdx index
  ((if newData = [] ∨ (newData.headD []).length = 0 then [] else newData),
   { cfg with customColumnWidths := shiftKeys index cfg.customColumnWidths })

theorem lookupOv_shiftKeys_lt (index k : Nat) (hk : k < index) :
    ∀ entries : List (Nat × ℚ),
      lookupOv (shiftKeys index entries) k = lookupOv entries k := by
  intro entries
  induction entries with
  | nil => rfl
  | cons q l ih =>
    rcases q with ⟨j, v⟩
    simp only [shiftKeys, List.filterMap_cons] at *
    by_cases h1 : j < index
    · rw [if_pos h1]
      by_cases h2 : j = k
      · subst h2
        simp [lookupOv, List.find?]
      · simp only [lookupOv, List.find?_cons]
        have hb : ((j, v).1 == k) = false := by
          simp [h2]
        rw [hb]
        exact ih
    · by_cases h3 : index < j
      · rw [if_neg h1, if_pos h3]
        have hjk : j ≠ k := by omega
        have hjk' : j - 1 ≠ k := by omega
        simp only [lookupOv, List.find?_cons]
        have hb1 : ((j - 1, v).1 == k) = false := by
          simp [hjk']
        have hb2 : ((j, v).1 == k) = false := by
          simp [hjk]
        rw [hb1, hb2]
        exact ih
      · have hj : j = index := by omega
        rw [if_neg h1, if_neg h3]
        have hjk : j ≠ k := by omega
        simp only [lookupOv, List.find?_cons]
        have hb : ((j, v).1 == k) = false := by
          simp [hjk]
        rw [hb]
        exact ih

theorem lookupOv_shiftKeys_gt (index k : Nat) (hk : index < k) :
    ∀ entries : List (Nat × ℚ),
      lookupOv (shiftKeys index entries) (k - 1) = lookupOv entries k := by
  intro entries
  induction entries with
  | nil => rfl
  | cons q l ih =>
    rcases q with ⟨j, v⟩
    simp only [shiftKeys, List.filterMap_cons] at *
    by_cases h1 : j < index
    · rw [if_pos h1]
      have hjk : j ≠ k := by omega
      have hjk' : j ≠ k - 1 := by omega
      simp only [lookupOv, List.find?_cons]
      have hb1 : ((j, v).1 == k - 1) = false := by
        simp [hjk']
      have hb2 : ((j, v).1 == k) = false := by
        simp [hjk]
      rw [hb1, hb2]
      exact ih
    · by_cases h3 : index < j
      · rw [if_neg h1, if_pos h3]
        by_cases h2 : j = k
        · subst h2
          simp only [lookupOv, List.find?_cons]
          have hb : ((j - 1, v).1 == j - 1) = true := by
            simp
          have hb2 : ((j, v).1 == j) = true := by
            simp
          rw [hb, hb2]
          rfl
        · have hjk' : j - 1 ≠ k - 1 := by omega
          simp only [lookupOv, List.find?_cons]
          have hb1 : ((j - 1, v).1 == k - 1) = false := by
            simp [hjk']
          have hb2 : ((j, v).1 == k) = false := by
            simp [h2]
          rw [hb1, hb2]
          exact ih
      · have hj : j = index := by omega
        rw [if_neg h1, if_neg h3]
        have hjk : j ≠ k := by omega
        simp only [lookupOv, List.find?_cons]
        have hb : ((j, v).1 == k) = false := by
          simp [hjk]
        rw [hb]
        exact ih

theorem mem_shiftKeys (index : Nat) (entries : List (Nat × ℚ)) :
    ∀ q ∈ shiftKeys index entries,
      (q.1 < index ∧ q ∈ entries) ∨
        (index ≤ q.1 ∧ (q.1 + 1, q.2) ∈ entries) := by
  intro q hq
  obtain ⟨p, hp, hpq⟩ := List.mem_filterMap.mp hq
  rcases p with ⟨j, v⟩
  by_cases h1 : j < index
  · rw [if_pos h1] at hpq
    cases hpq
    exact Or.inl ⟨h1, hp⟩
  · by_cases h3 : index < j
    · rw [if_neg h1, if_pos h3] at hpq
      cases hpq
      refine Or.inr ⟨by omega, ?_⟩
      have : j - 1 + 1 = j := by omega
      simpa [this] using hp
    · rw [if_neg h1, if_neg h3] at hpq
      cases hpq

/-- Three-column, one-row grid for the removal example. -/
def gridRow3 : TableData := [[mkCell "1" "A", mkCell "2" "B", mkCell "3" "C"]]

/-- Configuration with overrides `{0: 100, 2: 150}` on both maps. -/
def cfgOv : TableConfig :=
  { baseCfg with customColumnWidths := [(0, 100), (2, 150)],
                 customRowHeights := [(0, 100), (2, 150)] }

/-- C7. After removing row/column `index`, overrides below the removed
index are unchanged, overrides above are re-keyed down by one with
unchanged value, every surviving entry originates from a key other than
the removed one, and the spec's example `{0:100, 2:150}` with column `1`
removed becomes `{0:100, 1:150}`. -/
theorem override_shift (cfg : TableConfig) (d : TableData) (index k : Nat) :
    (k < index →
      lookupOv (removeRow d cfg index).2.customRowHeights k =
          lookupOv cfg.customRowHeights k ∧
        lookupOv (removeCol d cfg index).2.customColumnWidths k =
          lookupOv cfg.customColumnWidths k) ∧
    (index < k →
      lookupOv (removeRow d cfg index).2.customRowHeights (k - 1) =
          lookupOv cfg.customRowHeights k ∧
        lookupOv (removeCol d cfg index).2.customColumnWidths (k - 1) =
          lookupOv cfg.customColumnWidths k) ∧
    (∀ q ∈ (removeRow d cfg index).2.customRowHeights,
        (q.1 < index ∧ q ∈ cfg.customRowHeights) ∨
          (index ≤ q.1 ∧ (q.1 + 1, q.2) ∈ cfg.customRowHeights)) ∧
    (∀ q ∈ (removeCol d cfg index).2.customColumnWidths,
        (q.1 < index ∧ q ∈ cfg.customColumnWidths) ∨
          (index ≤ q.1 ∧ (q.1 + 1, q.2) ∈ cfg.customColumnWidths)) ∧
    (removeCol gridRow3 cfgOv 1).2.customColumnWidths = [(0, 100), (1, 150)] := by
  refine ⟨fun hk => ⟨?_, ?_⟩, fun hk => ⟨?_, ?_⟩, ?_, ?_, ?_⟩
  · exact lookupOv_shiftKeys_lt index k hk cfg.customRowHeights
  · exact lookupOv_shiftKeys_lt index k hk cfg.customColumnWidths
  · exact lookupOv_shiftKeys_gt index k hk cfg.customRowHeights
  · exact lookupOv_shiftKeys_gt index k hk cfg.customColumnWidths
  · exact mem_shiftKeys index cfg.customRowHeights
  · exact mem_shiftKeys index cfg.customColumnWidths
  · decide

/-- Witness for C7: removing index `1` with overrides `{0:100, 2:150}`,
checked at the surviving keys `0` and (shifted) `2 ↦ 1`. -/
theorem override_shift_witness :
    (0 : Nat) < 1 ∧ (1 : Nat) < 2 ∧
    (lookupOv (removeRow gridRow3 cfgOv 1).2.customRowHeights 0 =
        lookupOv cfgOv.customRowHeights 0 ∧
      lookupOv (removeCol gridRow3 cfgOv 1).2.customColumnWidths 0 =
        lookupOv cfgOv.customColumnWidths 0) ∧
    (lookupOv (removeRow gridRow3 cfgOv 1).2.customRowHeights 1 =
        lookupOv cfgOv.customRowHeights 2 ∧
      lookupOv (removeCol gridRow3 cfgOv 1).2.customColumnWidths 1 =
        lookupOv cfgOv.customColumnWidths 2) :=
  ⟨by decide, by decide,
    (override_shift cfgOv gridRow3 1 0).1 (by decide),
    (override_shift cfgOv gridRow3 1 2).2.1 (by decide)⟩

/-! ## Path Perturbation Primitive (`getRoughPath` in `sketchUtils`) -/

/-- Abstract model of the transcendental float functions used by
`getRoughPath` (`Math.sqrt`, `Math.atan2`, `Math.cos`, `Math.sin`,
`Math.PI / 2`); the primitive's behaviour at zero roughness and bowing is
independent of their values. -/
structure SketchModel where
  sqrtF : ℚ → ℚ
  atan2F : ℚ → ℚ → ℚ
  cosF : ℚ → ℚ
  sinF : ℚ → ℚ
  halfPi : ℚ

/-- The five `Math.random()` draws consumed by one `getRoughPath` call,
in order of consumption. -/
structure RandomDraws where
  bowRand : ℚ
  r1Rand : ℚ
  r2Rand : ℚ
  r3Rand : ℚ
  r4Rand : ℚ
deriving Repr, DecidableEq

/-- The quadratic curve description emitted by `getRoughPath`
(`M startX startY Q ctrlX ctrlY endX endY`). -/
structure RoughPath where
  startX : ℚ
  startY : ℚ
  ctrlX : ℚ
  ctrlY : ℚ
  endX : ℚ
  endY : ℚ
deriving Repr, DecidableEq

/-- `getRoughPath(x1, y1, x2, y2, roughness, bowing)`: displace the
midpoint perpendicularly by a random amount scaled to
`len * 0.05 * bowing` to form the control point, and jitter each endpoint
coordinate by a random amount scaled to `roughness * 2`. -/
def getRoughPath (m : SketchModel) (rnd : RandomDraws)
    (x1 y1 x2 y2 roughness bowing : ℚ) : RoughPath :=
  let len := m.sqrtF ((x2 - x1) ^ 2 + (y2 - y1) ^ 2)
  let midX := (x1 + x2) / 2
  let midY := (y1 + y2) / 2
  let bowOffset := len * (1 / 20) * bowing
  let angle := m.atan2F (y2 - y1) (x2 - x1)
  let perpAngle := angle + m.halfPi
  let randomBow := (rnd.bowRand - 1 / 2) * bowOffset
  let controlX := midX + m.cosF perpAngle * randomBow
  let controlY := midY + m.sinF perpAngle * randomBow
  let r1 := (rnd.r1Rand - 1 / 2) * roughness * 2
  let r2 := (rnd.r2Rand - 1 / 2) * roughness * 2
  let r3 := (rnd.r3Rand - 1 / 2) * roughness * 2
  let r4 := (rnd.r4Rand - 1 / 2) * roughness * 2
  ⟨x1 + r1, y1 + r2, controlX, controlY, x2 + r3, y2 + r4⟩

/-- C8. With roughness = 0 and bowing = 0, for every pair of endpoints,
every sequence of random draws and every model of the transcendental
functions, the primitive yields the straight degenerate curve: both
endpoints unjittered and the control point at the segment midpoint —
every jitter amplitude scales with roughness or bowing and vanishes. -/
theorem getRoughPath_degenerate (m : SketchModel) (rnd : RandomDraws)
    (x1 y1 x2 y2 : ℚ) :
    getRoughPath m rnd x1 y1 x2 y2 0 0 =
      ⟨x1, y1, (x1 + x2) / 2, (y1 + y2) / 2, x2, y2⟩ := by
  simp only [getRoughPath, RoughPath.mk.injEq]
  refine ⟨by ring, by ring, by ring, by ring, by ring, by ring⟩

/-! ## Merge and unmerge (`mergeCells`, `unmergeCells` in `DataEditor`) -/

/-- Rebuild a grid cell by cell with access to each cell's coordinates
(the `data.map(row => row.map(cell => …))` copy followed by the nested
mutation loops, expressed as one per-position update). -/
def mapGrid (f : Nat → Nat → TableCell → TableCell) (d : TableData) : TableData :=
  mapIdxFrom (fun r row => mapIdxFrom (fun c cell => f r c cell) 0 row) 0 d

theorem cellAt_mapGrid (f : Nat → Nat → TableCell → TableCell) (d : TableData)
    (r c : Nat) (hr : r < d.length) (hc : c < (d.getD r []).length) :
    cellAt (mapGrid f d) r c = f r c (cellAt d r c) := by
  unfold cellAt mapGrid
  rw [getD_mapIdxFrom _ d 0 r hr [] []]
  rw [getD_mapIdxFrom _ (d.getD r []) 0 c hc default default]
  norm_num

theorem length_mapGrid (f : Nat → Nat → TableCell → TableCell)
    (d : TableData) : (mapGrid f d).length = d.length :=
  length_mapIdxFrom _ 0 d

theorem rowLength_mapGrid (f : Nat → Nat → TableCell → TableCell)
    (d : TableData) (r : Nat) (hr : r < d.length) :
    ((mapGrid f d).getD r []).length = (d.getD r []).length := by
  rw [mapGrid, getD_mapIdxFrom _ d 0 r hr [] []]
  exact length_mapIdxFrom _ 0 _

/-- The cells of the merge rectangle, in row-major order (the nested
`for (r …) for (c …)` loops). -/
def rectCells (d : TableData) (minR maxR minC maxC : Nat) : List TableCell :=
  (List.range' minR (maxR - minR + 1)).flatMap fun r =>
    (List.range' minC (maxC - minC + 1)).map fun c => cellAt d r c

/-- One step of the `combinedValue` accumulation: append a non-hidden,
non-empty cell value, prefixed by a newline unless the accumulator is
still empty. -/
def joinStep (acc : Str) (cell : TableCell) : Str :=
  if cell.hidden = false ∧ cell.value ≠ [] then
    (if acc = [] then cell.value else acc ++ '\n' :: cell.value)
  else acc

/-- `combinedValue` of `mergeCells`: fold `joinStep` over the rectangle's
cells in row-major order. -/
def joinedValue (d : TableData) (minR maxR minC maxC : Nat) : Str :=
  (rectCells d minR maxR minC maxC).foldl joinStep []

/-- `mergeCells` on the normalized selection rectangle
`minR..maxR × minC..maxC`: no-op on a single-cell rectangle; otherwise
the master cell at `(minR, minC)` becomes visible with the full spans and
the combined value, and every other cell of the rectangle becomes a
hidden placeholder pointing at the master. -/
def mergeCells (d : TableData) (minR maxR minC maxC : Nat) : TableData :=
  if minR = maxR ∧ minC = maxC then d
  else
    let combined := joinedValue d minR maxR minC maxC
    mapGrid
      (fun r c cell =>
        if minR ≤ r ∧ r ≤ maxR ∧ minC ≤ c ∧ c ≤ maxC then
          if r = minR ∧ c = minC then
            { cell with value := combined, rowSpan := maxR - minR + 1,
                        colSpan := maxC - minC + 1, hidden := false,
                        ownerRow := none, ownerCol := none }
          else
            { cell with hidden := true, rowSpan := 1, colSpan := 1,
                        ownerRow := some minR, ownerCol := some minC,
                        value := [] }
        else cell)
      d

/-- `unmergeCells` at the selected master `(minR, minC)`: no-op when the
cell spans a single position; otherwise reset the master's spans to one
and clear the hidden flag and owner back-references of the other cells of
its span rectangle (cell values are not touched). -/
def unmergeCells (d : TableData) (minR minC : Nat) : TableData :=
  let cell := cellAt d minR minC
  if cell.rowSpan = 1 ∧ cell.colSpan = 1 then d
  else
    mapGrid
      (fun r c x =>
        if r = minR ∧ c = minC then { x with rowSpan := 1, colSpan := 1 }
        else if minR ≤ r ∧ r < minR + cell.rowSpan ∧ minC ≤ c ∧
            c < minC + cell.colSpan then
          { x with hidden := false, ownerRow := none, ownerCol := none }
        else x)
      d

theorem joinStep_foldl_ne_nil :
    ∀ (cells : List TableCell) (acc : Str), acc ≠ [] →
      cells.foldl joinStep acc =
        acc ++ (cells.filter fun cell =>
            !cell.hidden && !cell.value.isEmpty).flatMap
          (fun cell => '\n' :: cell.value) := by
  intro cells
  induction cells with
  | nil => intro acc _; simp
  | cons q cells ih =>
    intro acc hacc
    by_cases hk : q.hidden = false ∧ q.value ≠ []
    · have hb : (!q.hidden && !q.value.isEmpty) = true := by
        rw [hk.1]
        simpa using hk.2
      have hstep : joinStep acc q = acc ++ '\n' :: q.value := by
        rw [joinStep, if_pos hk, if_neg hacc]
      simp only [List.foldl_cons, List.filter_cons, hb, if_true, hstep,
        List.flatMap_cons]
      rw [ih _ (by simp)]
      simp
    · have hb : (!q.hidden && !q.value.isEmpty) = false := by
        by_cases hh : q.hidden = true
        · rw [hh]
          rfl
        · have hh' : q.hidden = false := Bool.eq_false_iff.mpr hh
          have hv : q.value = [] := by
            by_contra hv
            exact hk ⟨hh', hv⟩
          rw [hh', hv]
          rfl
      have hstep : joinStep acc q = acc := by
        rw [joinStep, if_neg hk]
      simp only [List.foldl_cons, List.filter_cons, hb, hstep]
      simp only [Bool.false_eq_true, if_false]
      exact ih acc hacc

/-- The `combinedValue` fold equals the newline-join of the non-empty
values of the non-hidden cells, in order. -/
theorem joinStep_foldl_nil :
    ∀ cells : List TableCell,
      cells.foldl joinStep [] =
        joinSep '\n' ((cells.filter fun cell =>
            !cell.hidden && !cell.value.isEmpty).map fun cell => cell.value) := by
  intro cells
  induction cells with
  | nil => rfl
  | cons q cells ih =>
    by_cases hk : q.hidden = false ∧ q.value ≠ []
    · have hb : (!q.hidden && !q.value.isEmpty) = true := by
        rw [hk.1]
        simpa using hk.2
      have hstep : joinStep [] q = q.value := by
        rw [joinStep, if_pos hk, if_pos rfl]
      simp only [List.foldl_cons, List.filter_cons, hb, if_true, hstep,
        List.map_cons, joinSep]
      rw [joinStep_foldl_ne_nil cells q.value hk.2, List.flatMap_map]
    · have hb : (!q.hidden && !q.value.isEmpty) = false := by
        by_cases hh : q.hidden = true
        · rw [hh]
          rfl
        · have hh' : q.hidden = false := Bool.eq_false_iff.mpr hh
          have hv : q.value = [] := by
            by_contra hv
            exact hk ⟨hh', hv⟩
          rw [hh', hv]
          rfl
      have hstep : joinStep [] q = [] := by
        rw [joinStep, if_neg hk]
      simp only [List.foldl_cons, List.filter_cons, hb, hstep]
      simp only [Bool.false_eq_true, if_false]
      exact ih

theorem mergeCells_cellAt (d : TableData) (minR maxR minC maxC r c : Nat)
    (hne : ¬(minR = maxR ∧ minC = maxC)) (hr : r < d.length)
    (hc : c < (d.getD r []).length) :
    cellAt (mergeCells d minR maxR minC maxC) r c =
      (if minR ≤ r ∧ r ≤ maxR ∧ minC ≤ c ∧ c ≤ maxC then
        if r = minR ∧ c = minC then
          { (cellAt d r c) with
              value := joinedValue d minR maxR minC maxC,
              rowSpan := maxR - minR + 1, colSpan := maxC - minC + 1,
              hidden := false, ownerRow := none, ownerCol := none }
        else
          { (cellAt d r c) with
              hidden := true, rowSpan := 1, colSpan := 1,
              ownerRow := some minR, ownerCol := some minC, value := [] }
      else cellAt d r c) := by
  simp only [mergeCells, if_neg hne]
  exact cellAt_mapGrid _ d r c hr hc

theorem mergeCells_length (d : TableData) (minR maxR minC maxC : Nat)
    (hne : ¬(minR = maxR ∧ minC = maxC)) :
    (mergeCells d minR maxR minC maxC).length = d.length := by
  simp only [mergeCells, if_neg hne]
  exact length_mapGrid _ d

theorem mergeCells_rowLength (d : TableData) (minR maxR minC maxC r : Nat)
    (hne : ¬(minR = maxR ∧ minC = maxC)) (hr : r < d.length) :
    ((mergeCells d minR maxR minC maxC).getD r []).length =
      (d.getD r []).length := by
  simp only [mergeCells, if_neg hne]
  exact rowLength_mapGrid _ d r hr

theorem merge_master_cell (d : TableData) (minR maxR minC maxC : Nat)
    (hne : ¬(minR = maxR ∧ minC = maxC)) (h1 : minR ≤ maxR) (h2 : minC ≤ maxC)
    (hr : maxR < d.length) (hc : maxC < colCount d)
    (hrect : ∀ row ∈ d, row.length = colCount d) :
    cellAt (mergeCells d minR maxR minC maxC) minR minC =
      { (cellAt d minR minC) with
          value := joinedValue d minR maxR minC maxC,
          rowSpan := maxR - minR + 1, colSpan := maxC - minC + 1,
          hidden := false, ownerRow := none, ownerCol := none } := by
  have hb1 : minR < d.length := lt_of_le_of_lt h1 hr
  have hb2 : minC < (d.getD minR []).length := by
    rw [hrect _ (getD_mem_of_lt d [] minR hb1)]
    exact lt_of_le_of_lt h2 hc
  rw [mergeCells_cellAt d minR maxR minC maxC minR minC hne hb1 hb2]
  rw [if_pos ⟨le_refl minR, h1, le_refl minC, h2⟩, if_pos ⟨rfl, rfl⟩]

theorem merge_other_cell (d : TableData) (minR maxR minC maxC r c : Nat)
    (hne : ¬(minR = maxR ∧ minC = maxC))
    (hr : maxR < d.length) (hc : maxC < colCount d)
    (hrect : ∀ row ∈ d, row.length = colCount d)
    (har1 : minR ≤ r) (har2 : r ≤ maxR) (hac1 : minC ≤ c) (hac2 : c ≤ maxC)
    (hneq : ¬(r = minR ∧ c = minC)) :
    cellAt (mergeCells d minR maxR minC maxC) r c =
      { (cellAt d r c) with
          hidden := true, rowSpan := 1, colSpan := 1,
          ownerRow := some minR, ownerCol := some minC, value := [] } := by
  have hb1 : r < d.length := lt_of_le_of_lt har2 hr
  have hb2 : c < (d.getD r []).length := by
    rw [hrect _ (getD_mem_of_lt d [] r hb1)]
    exact lt_of_le_of_lt hac2 hc
  rw [mergeCells_cellAt d minR maxR minC maxC r c hne hb1 hb2]
  rw [if_pos ⟨har1, har2, hac1, hac2⟩, if_neg hneq]

/-- The 2×2 example grid with cells "A", "B", "C", "D". -/
def grid22 : TableData :=
  [[mkCell "1" "A", mkCell "2" "B"], [mkCell "3" "C", mkCell "4" "D"]]

/-- The expected result of merging the whole of `grid22`. -/
def grid22merged : TableData :=
  [[⟨strL "1", strL "A\nB\nC\nD", 2, 2, false, none, none⟩,
    ⟨strL "2", [], 1, 1, true, some 0, some 0⟩],
   [⟨strL "3", [], 1, 1, true, some 0, some 0⟩,
    ⟨strL "4", [], 1, 1, true, some 0, some 0⟩]]

/-- C5. Merging a rectangle with more than one position makes the master
cell visible with the full spans and the newline-join of the previously
non-hidden, non-empty values in row-major order, turns every other cell
of the rectangle into an empty hidden placeholder owned by the master,
and in particular merging the whole 2×2 grid "A","B","C","D" yields one
visible cell at (0,0) with value "A\nB\nC\nD". -/
theorem mergeCells_spec (d : TableData) (minR maxR minC maxC : Nat)
    (hne : ¬(minR = maxR ∧ minC = maxC)) (h1 : minR ≤ maxR) (h2 : minC ≤ maxC)
    (hr : maxR < d.length) (hc : maxC < colCount d)
    (hrect : ∀ row ∈ d, row.length = colCount d) :
    (cellAt (mergeCells d minR maxR minC maxC) minR minC =
      { (cellAt d minR minC) with
          value := joinSep '\n'
            (((rectCells d minR maxR minC maxC).filter fun cell =>
                !cell.hidden && !cell.value.isEmpty).map fun cell => cell.value),
          rowSpan := maxR - minR + 1, colSpan := maxC - minC + 1,
          hidden := false, ownerRow := none, ownerCol := none }) ∧
    (∀ r c, minR ≤ r → r ≤ maxR → minC ≤ c → c ≤ maxC →
      ¬(r = minR ∧ c = minC) →
      cellAt (mergeCells d minR maxR minC maxC) r c =
        { (cellAt d r c) with
            hidden := true, rowSpan := 1, colSpan := 1,
            ownerRow := some minR, ownerCol := some minC, value := [] }) ∧
    mergeCells grid22 0 1 0 1 = grid22merged := by
  refine ⟨?_, ?_, ?_⟩
  · rw [merge_master_cell d minR maxR minC maxC hne h1 h2 hr hc hrect]
    rw [show joinedValue d minR maxR minC maxC =
        joinSep '\n' (((rectCells d minR maxR minC maxC).filter fun cell =>
            !cell.hidden && !cell.value.isEmpty).map fun cell => cell.value)
      from joinStep_foldl_nil (rectCells d minR maxR minC maxC)]
  · intro r c har1 har2 hac1 hac2 hneq
    exact merge_other_cell d minR maxR minC maxC r c hne hr hc hrect
      har1 har2 hac1 hac2 hneq
  · decide

/-- Witness for C5: merging the whole of the 2×2 example grid. -/
theorem mergeCells_spec_witness :
    ¬((0 : Nat) = 1 ∧ (0 : Nat) = 1) ∧ (0 : Nat) ≤ 1 ∧ (0 : Nat) ≤ 1 ∧
    1 < grid22.length ∧ 1 < colCount grid22 ∧
    (∀ row ∈ grid22, row.length = colCount grid22) ∧
    cellAt (mergeCells grid22 0 1 0 1) 0 0 =
      { (cellAt grid22 0 0) with
          value := joinSep '\n'
            (((rectCells grid22 0 1 0 1).filter fun cell =>
                !cell.hidden && !cell.value.isEmpty).map fun cell => cell.value),
          rowSpan := 2, colSpan := 2, hidden := false,
          ownerRow := none, ownerCol := none } :=
  ⟨by decide, by decide, by decide, by decide, by decide, by decide,
    (mergeCells_spec grid22 0 1 0 1 (by decide) (by decide) (by decide)
      (by decide) (by decide) (by decide)).1⟩

/-- C6. Merging a rectangle with more than one position and then
immediately unmerging it restores row-span and column-span one on every
cell of the rectangle and clears the hidden flag and owner coordinates;
the per-cell text is not restored — the concatenated text stays in the
master cell and the other cells stay empty. -/
theorem merge_unmerge_roundtrip (d : TableData) (minR maxR minC maxC : Nat)
    (hne : ¬(minR = maxR ∧ minC = maxC)) (h1 : minR ≤ maxR) (h2 : minC ≤ maxC)
    (hr : maxR < d.length) (hc : maxC < colCount d)
    (hrect : ∀ row ∈ d, row.length = colCount d) :
    ∀ r c, minR ≤ r → r ≤ maxR → minC ≤ c → c ≤ maxC →
      (cellAt (unmergeCells (mergeCells d minR maxR minC maxC) minR minC) r c).rowSpan = 1 ∧
      (cellAt (unmergeCells (mergeCells d minR maxR minC maxC) minR minC) r c).colSpan = 1 ∧
      (cellAt (unmergeCells (mergeCells d minR maxR minC maxC) minR minC) r c).hidden = false ∧
      (cellAt (unmergeCells (mergeCells d minR maxR minC maxC) minR minC) r c).ownerRow = none ∧
      (cellAt (unmergeCells (mergeCells d minR maxR minC maxC) minR minC) r c).ownerCol = none ∧
      (cellAt (unmergeCells (mergeCells d minR maxR minC maxC) minR minC) r c).value =
        (if r = minR ∧ c = minC then joinedValue d minR maxR minC maxC
         else []) := by
  intro r c har1 har2 hac1 hac2
  have hmaster := merge_master_cell d minR maxR minC maxC hne h1 h2 hr hc hrect
  have hb1 : r < d.length := lt_of_le_of_lt har2 hr
  have hb2 : c < (d.getD r []).length := by
    rw [hrect _ (getD_mem_of_lt d [] r hb1)]
    exact lt_of_le_of_lt hac2 hc
  have hb1' : r < (mergeCells d minR maxR minC maxC).length := by
    rw [mergeCells_length d minR maxR minC maxC hne]
    exact hb1
  have hb2' : c < ((mergeCells d minR maxR minC maxC).getD r []).length := by
    rw [mergeCells_rowLength d minR maxR minC maxC r hne hb1]
    exact hb2
  have hspan1 : (cellAt (mergeCells d minR maxR minC maxC) minR minC).rowSpan =
      maxR - minR + 1 := by
    rw [hmaster]
  have hspan2 : (cellAt (mergeCells d minR maxR minC maxC) minR minC).colSpan =
      maxC - minC + 1 := by
    rw [hmaster]
  have hcond : ¬((cellAt (mergeCells d minR maxR minC maxC) minR minC).rowSpan = 1 ∧
      (cellAt (mergeCells d minR maxR minC maxC) minR minC).colSpan = 1) := by
    rw [hspan1, hspan2]
    intro hk
    exact hne ⟨by omega, by omega⟩
  have hunm : cellAt (unmergeCells (mergeCells d minR maxR minC maxC) minR minC) r c =
      (if r = minR ∧ c = minC then
        { (cellAt (mergeCells d minR maxR minC maxC) r c) with
            rowSpan := 1, colSpan := 1 }
      else if minR ≤ r ∧
          r < minR + (cellAt (mergeCells d minR maxR minC maxC) minR minC).rowSpan ∧
          minC ≤ c ∧
          c < minC + (cellAt (mergeCells d minR maxR minC maxC) minR minC).colSpan then
        { (cellAt (mergeCells d minR maxR minC maxC) r c) with
            hidden := false, ownerRow := none, ownerCol := none }
      else cellAt (mergeCells d minR maxR minC maxC) r c) := by
    simp only [unmergeCells, if_neg hcond]
    exact cellAt_mapGrid _ (mergeCells d minR maxR minC maxC) r c hb1' hb2'
  by_cases hm : r = minR ∧ c = minC
  · rw [hunm, if_pos hm, hm.1, hm.2, hmaster, if_pos ⟨rfl, rfl⟩]
    exact ⟨rfl, rfl, rfl, rfl, rfl, rfl⟩
  · have hin : minR ≤ r ∧
        r < minR + (cellAt (mergeCells d minR maxR minC maxC) minR minC).rowSpan ∧
        minC ≤ c ∧
        c < minC + (cellAt (mergeCells d minR maxR minC maxC) minR minC).colSpan := by
      rw [hspan1, hspan2]
      refine ⟨har1, by omega, hac1, by omega⟩
    have hother := merge_other_cell d minR maxR minC maxC r c hne hr hc hrect
      har1 har2 hac1 hac2 hm
    rw [hunm, if_neg hm, if_pos hin, hother, if_neg hm]
    exact ⟨rfl, rfl, rfl, rfl, rfl, rfl⟩

/-- Witness for C6 on the 2×2 example grid, instantiated at the hidden
placeholder position (1, 1). -/
theorem merge_unmerge_roundtrip_witness :
    ¬((0 : Nat) = 1 ∧ (0 : Nat) = 1) ∧ (0 : Nat) ≤ 1 ∧ (0 : Nat) ≤ 1 ∧
    1 < grid22.length ∧ 1 < colCount grid22 ∧
    (∀ row ∈ grid22, row.length = colCount grid22) ∧
    (0 : Nat) ≤ 1 ∧ (1 : Nat) ≤ 1 ∧
    ((cellAt (unmergeCells (mergeCells grid22 0 1 0 1) 0 0) 1 1).rowSpan = 1 ∧
      (cellAt (unmergeCells (mergeCells grid22 0 1 0 1) 0 0) 1 1).colSpan = 1 ∧
      (cellAt (unmergeCells (mergeCells grid22 0 1 0 1) 0 0) 1 1).hidden = false ∧
      (cellAt (unmergeCells (mergeCells grid22 0 1 0 1) 0 0) 1 1).ownerRow = none ∧
      (cellAt (unmergeCells (mergeCells grid22 0 1 0 1) 0 0) 1 1).ownerCol = none ∧
      (cellAt (unmergeCells (mergeCells grid22 0 1 0 1) 0 0) 1 1).value =
        (if (1 : Nat) = 0 ∧ (1 : Nat) = 0 then joinedValue grid22 0 1 0 1
         else [])) :=
  ⟨by decide, by decide, by decide, by decide, by decide, by decide,
    by decide, by decide,
    merge_unmerge_roundtrip grid22 0 1 0 1 (by decide) (by decide) (by decide)
      (by decide) (by decide) (by decide) 1 1 (by decide) (by decide)
      (by decide) (by decide)⟩

/-! ## Merge-Aware Line Suppressor (`getCellAt`, `paths` in
`HandDrawnTable`) -/

/-- `getCellAt(r, c)`: `null` out of range; otherwise the effective
owning cell — the cell itself when visible, the owner cell resolved
through the hidden cell's back-reference (`ownerRow ?? r`,
`ownerCol ?? c`) otherwise — together with its coordinates. -/
def getCellAt (d : TableData) (r c : Nat) : Option (TableCell × Nat × Nat) :=
  if r < d.length ∧ c < colCount d then
    let cell := cellAt d r c
    if cell.hidden then
      let oR := cell.ownerRow.getD r
      let oC := cell.ownerCol.getD c
      some (cellAt d oR oC, oR, oC)
    else some (cell, r, c)
  else none

/-- Draw decision for the horizontal segment at grid-line row `r`,
column `c`: always draw on the outer boundaries; otherwise suppress
exactly when the effective owning cell above spans past `r`. -/
def shouldDrawH (d : TableData) (r c : Nat) : Bool :=
  if r = 0 ∨ r = d.length then true
  else
    match getCellAt d (r - 1) c with
    | some (cell, cr, _) => !(decide (r < cr + cell.rowSpan))
    | none => true

/-- Draw decision for the vertical segment at grid-line column `c`,
row `r` (the code's loop order: `c` outer, `r` inner). -/
def shouldDrawV (d : TableData) (c r : Nat) : Bool :=
  if c = 0 ∨ c = colCount d then true
  else
    match getCellAt d r (c - 1) with
    | some (cell, _, cc) => !(decide (c < cc + cell.colSpan))
    | none => true

/-- The span rectangle of the (visible) cell stored at `(R, C)` covers
position `(r, c)`. -/
def owns (d : TableData) (R C r c : Nat) : Prop :=
  (cellAt d R C).hidden = false ∧
  R ≤ r ∧ r < R + (cellAt d R C).rowSpan ∧
  C ≤ c ∧ c < C + (cellAt d R C).colSpan

instance (d : TableData) (R C r c : Nat) : Decidable (owns d R C r c) := by
  unfold owns
  infer_instance

/-- Owner coordinates of position `(r, c)`: itself when visible, the
back-reference otherwise. -/
def resolveCoords (d : TableData) (r c : Nat) : Nat × Nat :=
  let cell := cellAt d r c
  if cell.hidden then (cell.ownerRow.getD r, cell.ownerCol.getD c) else (r, c)

/-- The hidden/owner and span invariants of the data model: the grid is
rectangular; every visible cell has spans at least one contained in the
grid; every position is covered by the rectangle of its resolved owner,
and by no other rectangle — each position has exactly one owner, the one
the back-references name. -/
def GridInv (d : TableData) : Prop :=
  (∀ row ∈ d, row.length = colCount d) ∧
  (∀ r, r < d.length → ∀ c, c < colCount d →
    ((cellAt d r c).hidden = false →
      1 ≤ (cellAt d r c).rowSpan ∧ 1 ≤ (cellAt d r c).colSpan ∧
      r + (cellAt d r c).rowSpan ≤ d.length ∧
      c + (cellAt d r c).colSpan ≤ colCount d) ∧
    owns d (resolveCoords d r c).1 (resolveCoords d r c).2 r c ∧
    (∀ R, R < r + 1 → ∀ C, C < c + 1 → owns d R C r c →
      (R, C) = resolveCoords d r c))

/-- Executable check of `GridInv`. -/
def gridInvCheck (d : TableData) : Bool :=
  d.all (fun row => row.length == colCount d) &&
  ((List.range d.length).all fun r =>
    (List.range (colCount d)).all fun c =>
      decide ((cellAt d r c).hidden = false →
        1 ≤ (cellAt d r c).rowSpan ∧ 1 ≤ (cellAt d r c).colSpan ∧
        r + (cellAt d r c).rowSpan ≤ d.length ∧
        c + (cellAt d r c).colSpan ≤ colCount d) &&
      decide (owns d (resolveCoords d r c).1 (resolveCoords d r c).2 r c) &&
      ((List.range (r + 1)).all fun R =>
        (List.range (c + 1)).all fun C =>
          decide (owns d R C r c → (R, C) = resolveCoords d r c)))

theorem gridInvCheck_iff (d : TableData) : gridInvCheck d = true ↔ GridInv d := by
  rw [gridInvCheck, GridInv]
  simp only [List.all_eq_true, List.mem_range, Bool.and_eq_true,
    decide_eq_true_eq, beq_iff_eq]
  constructor
  · rintro ⟨h1, h2⟩
    refine ⟨h1, fun r hr c hc => ?_⟩
    obtain ⟨⟨ha, hb⟩, hc'⟩ := h2 r hr c hc
    exact ⟨ha, hb, hc'⟩
  · rintro ⟨h1, h2⟩
    refine ⟨h1, fun r hr c hc => ?_⟩
    obtain ⟨ha, hb, hc'⟩ := h2 r hr c hc
    exact ⟨⟨ha, hb⟩, hc'⟩

instance (d : TableData) : Decidable (GridInv d) :=
  decidable_of_iff (gridInvCheck d = true) (gridInvCheck_iff d)

theorem getCellAt_eq (d : TableData) (r c : Nat) (hr : r < d.length)
    (hc : c < colCount d) :
    getCellAt d r c =
      some (cellAt d (resolveCoords d r c).1 (resolveCoords d r c).2,
        (resolveCoords d r c).1, (resolveCoords d r c).2) := by
  rw [getCellAt, if_pos ⟨hr, hc⟩]
  by_cases hh : (cellAt d r c).hidden
  · simp only [resolveCoords, hh, if_true]
  · simp only [resolveCoords, Bool.not_eq_true] at hh ⊢
    simp only [hh, Bool.false_eq_true, if_false]

/-- A position owned by `(R, C)` forces `(R, C)` in bounds: out-of-range
access yields the default cell, whose spans are zero. -/
theorem owns_inBounds (d : TableData) (R C r c : Nat)
    (hrect : ∀ row ∈ d, row.length = colCount d) (h : owns d R C r c) :
    R < d.length ∧ C < colCount d := by
  have hspan : 1 ≤ (cellAt d R C).rowSpan := by
    rcases h with ⟨_, h1, h2, _, _⟩
    omega
  have hdefault : ¬(1 ≤ (default : TableCell).rowSpan) := by decide
  constructor
  · by_contra hR
    have hempty : d.getD R [] = ([] : List TableCell) :=
      List.getD_eq_default _ _ (by omega)
    have hcell : cellAt d R C = default := by
      rw [cellAt, hempty]
      simp
    rw [hcell] at hspan
    exact hdefault hspan
  · by_contra hC
    have hRlt : R < d.length := by
      by_contra hR
      have hempty : d.getD R [] = ([] : List TableCell) :=
        List.getD_eq_default _ _ (by omega)
      have hcell : cellAt d R C = default := by
        rw [cellAt, hempty]
        simp
      rw [hcell] at hspan
      exact hdefault hspan
    have hrowlen : (d.getD R []).length = colCount d :=
      hrect _ (getD_mem_of_lt d [] R hRlt)
    have hcell : cellAt d R C = default := by
      rw [cellAt]
      exact List.getD_eq_default _ _ (by omega)
    rw [hcell] at hspan
    exact hdefault hspan

theorem drawH_rule (d : TableData) (r c : Nat) (hrle : r ≤ d.length)
    (hc : c < colCount d) :
    shouldDrawH d r c = true ↔
      (r = 0 ∨ r = d.length ∨
        ¬(r < (resolveCoords d (r - 1) c).1 +
            (cellAt d (resolveCoords d (r - 1) c).1
              (resolveCoords d (r - 1) c).2).rowSpan)) := by
  by_cases h0 : r = 0
  · simp [shouldDrawH, h0]
  · by_cases hlen : r = d.length
    · simp [shouldDrawH, hlen]
    · have hb : r - 1 < d.length := by omega
      rw [shouldDrawH, if_neg (by tauto : ¬(r = 0 ∨ r = d.length))]
      rw [getCellAt_eq d (r - 1) c hb hc]
      simp [h0, hlen]

theorem drawV_rule (d : TableData) (c r : Nat) (hcle : c ≤ colCount d)
    (hr : r < d.length) :
    shouldDrawV d c r = true ↔
      (c = 0 ∨ c = colCount d ∨
        ¬(c < (resolveCoords d r (c - 1)).2 +
            (cellAt d (resolveCoords d r (c - 1)).1
              (resolveCoords d r (c - 1)).2).colSpan)) := by
  by_cases h0 : c = 0
  · simp [shouldDrawV, h0]
  · by_cases hlen : c = colCount d
    · simp [shouldDrawV, hlen]
    · have hb : c - 1 < colCount d := by omega
      rw [shouldDrawV, if_neg (by tauto : ¬(c = 0 ∨ c = colCount d))]
      rw [getCellAt_eq d r (c - 1) hr hb]
      simp [h0, hlen]

theorem drawH_interior (d : TableData) (hinv : GridInv d) (R C : Nat)
    (hR : R < d.length) (hC : C < colCount d)
    (hh : (cellAt d R C).hidden = false) (r c : Nat)
    (h1 : R < r) (h2 : r < R + (cellAt d R C).rowSpan)
    (h3 : C ≤ c) (h4 : c < C + (cellAt d R C).colSpan) :
    shouldDrawH d r c = false := by
  obtain ⟨hrect, hmain⟩ := hinv
  obtain ⟨_, _, hrlen, hclen⟩ := (hmain R hR C hC).1 hh
  have hrl : r < d.length := by omega
  have hcl : c < colCount d := by omega
  have hb : r - 1 < d.length := by omega
  have howns : owns d R C (r - 1) c := ⟨hh, by omega, by omega, h3, h4⟩
  have hres : (R, C) = resolveCoords d (r - 1) c :=
    (hmain (r - 1) hb c hcl).2.2 R (by omega) C (by omega) howns
  rw [shouldDrawH, if_neg (by rintro (h | h) <;> omega : ¬(r = 0 ∨ r = d.length))]
  rw [getCellAt_eq d (r - 1) c hb hcl, ← hres]
  simp [h2]

theorem drawV_interior (d : TableData) (hinv : GridInv d) (R C : Nat)
    (hR : R < d.length) (hC : C < colCount d)
    (hh : (cellAt d R C).hidden = false) (r c : Nat)
    (h1 : R ≤ r) (h2 : r < R + (cellAt d R C).rowSpan)
    (h3 : C < c) (h4 : c < C + (cellAt d R C).colSpan) :
    shouldDrawV d c r = false := by
  obtain ⟨hrect, hmain⟩ := hinv
  obtain ⟨_, _, hrlen, hclen⟩ := (hmain R hR C hC).1 hh
  have hrl : r < d.length := by omega
  have hcl : c < colCount d := by omega
  have hb : c - 1 < colCount d := by omega
  have howns : owns d R C r (c - 1) := ⟨hh, h1, h2, by omega, by omega⟩
  have hres : (R, C) = resolveCoords d r (c - 1) :=
    (hmain r hrl (c - 1) hb).2.2 R (by omega) C (by omega) howns
  rw [shouldDrawV, if_neg (by rintro (h | h) <;> omega : ¬(c = 0 ∨ c = colCount d))]
  rw [getCellAt_eq d r (c - 1) hrl hb, ← hres]
  simp [h4]

theorem drawH_top (d : TableData) (hinv : GridInv d) (R C : Nat)
    (hR : R < d.length) (hC : C < colCount d)
    (hh : (cellAt d R C).hidden = false) (c : Nat)
    (h3 : C ≤ c) (h4 : c < C + (cellAt d R C).colSpan) :
    shouldDrawH d R c = true := by
  obtain ⟨hrect, hmain⟩ := hinv
  obtain ⟨hrs, hcs, hrlen, hclen⟩ := (hmain R hR C hC).1 hh
  by_cases h0 : R = 0
  · simp [shouldDrawH, h0]
  · have hcl : c < colCount d := by omega
    have hb : R - 1 < d.length := by omega
    have howns' := (hmain (R - 1) hb c hcl).2.1
    rw [shouldDrawH,
      if_neg (by rintro (h | h) <;> omega : ¬(R = 0 ∨ R = d.length))]
    rw [getCellAt_eq d (R - 1) c hb hcl]
    suffices hnot : ¬(R < (resolveCoords d (R - 1) c).1 +
        (cellAt d (resolveCoords d (R - 1) c).1
          (resolveCoords d (R - 1) c).2).rowSpan) by
      simp [hnot]
    intro hlt
    obtain ⟨hid', hle1, hlt1, hle2, hlt2⟩ := howns'
    have howns1 : owns d (resolveCoords d (R - 1) c).1
        (resolveCoords d (R - 1) c).2 R c := ⟨hid', by omega, hlt, hle2, hlt2⟩
    have howns2 : owns d R C R c := ⟨hh, le_refl R, by omega, h3, h4⟩
    have he1 := (hmain R hR c hcl).2.2 (resolveCoords d (R - 1) c).1
      (by omega) (resolveCoords d (R - 1) c).2 (by omega) howns1
    have he2 := (hmain R hR c hcl).2.2 R (by omega) C (by omega) howns2
    have hfst : (resolveCoords d (R - 1) c).1 = R := by
      rw [← he2] at he1
      exact congrArg Prod.fst he1
    omega

theorem drawV_left (d : TableData) (hinv : GridInv d) (R C : Nat)
    (hR : R < d.length) (hC : C < colCount d)
    (hh : (cellAt d R C).hidden = false) (r : Nat)
    (h1 : R ≤ r) (h2 : r < R + (cellAt d R C).rowSpan) :
    shouldDrawV d C r = true := by
  obtain ⟨hrect, hmain⟩ := hinv
  obtain ⟨hrs, hcs, hrlen, hclen⟩ := (hmain R hR C hC).1 hh
  by_cases h0 : C = 0
  · simp [shouldDrawV, h0]
  · have hrl : r < d.length := by omega
    have hb : C - 1 < colCount d := by omega
    have howns' := (hmain r hrl (C - 1) hb).2.1
    rw [shouldDrawV,
      if_neg (by rintro (h | h) <;> omega : ¬(C = 0 ∨ C = colCount d))]
    rw [getCellAt_eq d r (C - 1) hrl hb]
    suffices hnot : ¬(C < (resolveCoords d r (C - 1)).2 +
        (cellAt d (resolveCoords d r (C - 1)).1
          (resolveCoords d r (C - 1)).2).colSpan) by
      simp [hnot]
    intro hlt
    obtain ⟨hid', hle1, hlt1, hle2, hlt2⟩ := howns'
    have howns1 : owns d (resolveCoords d r (C - 1)).1
        (resolveCoords d r (C - 1)).2 r C := ⟨hid', hle1, hlt1, by omega, hlt⟩
    have howns2 : owns d R C r C := ⟨hh, h1, h2, le_refl C, by omega⟩
    have he1 := (hmain r hrl C hC).2.2 (resolveCoords d r (C - 1)).1
      (by omega) (resolveCoords d r (C - 1)).2 (by omega) howns1
    have he2 := (hmain r hrl C hC).2.2 R (by omega) C (by omega) howns2
    have hsnd : (resolveCoords d r (C - 1)).2 = C := by
      rw [← he2] at he1
      have := congrArg Prod.snd he1
      simpa using this
    omega

theorem drawH_bottom (d : TableData) (hinv : GridInv d) (R C : Nat)
    (hR : R < d.length) (hC : C < colCount d)
    (hh : (cellAt d R C).hidden = false) (c : Nat)
    (h3 : C ≤ c) (h4 : c < C + (cellAt d R C).colSpan) :
    shouldDrawH d (R + (cellAt d R C).rowSpan) c = true := by
  obtain ⟨hrect, hmain⟩ := hinv
  obtain ⟨hrs, hcs, hrlen, hclen⟩ := (hmain R hR C hC).1 hh
  by_cases hlen : R + (cellAt d R C).rowSpan = d.length
  · simp [shouldDrawH, hlen]
  · have hcl : c < colCount d := by omega
    have hb : R + (cellAt d R C).rowSpan - 1 < d.length := by omega
    have howns : owns d R C (R + (cellAt d R C).rowSpan - 1) c :=
      ⟨hh, by omega, by omega, h3, h4⟩
    have hres : (R, C) = resolveCoords d (R + (cellAt d R C).rowSpan - 1) c :=
      (hmain (R + (cellAt d R C).rowSpan - 1) hb c hcl).2.2 R (by omega) C
        (by omega) howns
    rw [shouldDrawH, if_neg (by rintro (h | h) <;> omega :
      ¬(R + (cellAt d R C).rowSpan = 0 ∨
        R + (cellAt d R C).rowSpan = d.length))]
    rw [getCellAt_eq d (R + (cellAt d R C).rowSpan - 1) c hb hcl, ← hres]
    simp

theorem drawV_right (d : TableData) (hinv : GridInv d) (R C : Nat)
    (hR : R < d.length) (hC : C < colCount d)
    (hh : (cellAt d R C).hidden = false) (r : Nat)
    (h1 : R ≤ r) (h2 : r < R + (cellAt d R C).rowSpan) :
    shouldDrawV d (C + (cellAt d R C).colSpan) r = true := by
  obtain ⟨hrect, hmain⟩ := hinv
  obtain ⟨hrs, hcs, hrlen, hclen⟩ := (hmain R hR C hC).1 hh
  by_cases hlen : C + (cellAt d R C).colSpan = colCount d
  · simp [shouldDrawV, hlen]
  · have hrl : r < d.length := by omega
    have hb : C + (cellAt d R C).colSpan - 1 < colCount d := by omega
    have howns : owns d R C r (C + (cellAt d R C).colSpan - 1) :=
      ⟨hh, h1, h2, by omega, by omega⟩
    have hres : (R, C) = resolveCoords d r (C + (cellAt d R C).colSpan - 1) :=
      (hmain r hrl (C + (cellAt d R C).colSpan - 1) hb).2.2 R (by omega) C
        (by omega) howns
    rw [shouldDrawV, if_neg (by rintro (h | h) <;> omega :
      ¬(C + (cellAt d R C).colSpan = 0 ∨
        C + (cellAt d R C).colSpan = colCount d))]
    rw [getCellAt_eq d r (C + (cellAt d R C).colSpan - 1) hrl hb, ← hres]
    simp

/-- C1. For every grid satisfying the hidden/owner and span invariants:
the horizontal (resp. vertical) segment at a grid line is drawn exactly
when it is on the outer boundary or the effective owning cell above
(resp. to the left), resolved through the hidden-to-owner
back-references, does not span past the line; consequently no drawn
segment lies in the interior of any owning rectangle, and each owning
rectangle's four edges are fully covered by drawn segments. -/
theorem line_suppression (d : TableData) (hinv : GridInv d) :
    (∀ r c, r ≤ d.length → c < colCount d →
      (shouldDrawH d r c = true ↔
        (r = 0 ∨ r = d.length ∨
          ¬(r < (resolveCoords d (r - 1) c).1 +
              (cellAt d (resolveCoords d (r - 1) c).1
                (resolveCoords d (r - 1) c).2).rowSpan)))) ∧
    (∀ c r, c ≤ colCount d → r < d.length →
      (shouldDrawV d c r = true ↔
        (c = 0 ∨ c = colCount d ∨
          ¬(c < (resolveCoords d r (c - 1)).2 +
              (cellAt d (resolveCoords d r (c - 1)).1
                (resolveCoords d r (c - 1)).2).colSpan)))) ∧
    (∀ R C, R < d.length → C < colCount d →
      (cellAt d R C).hidden = false →
      (∀ r c, R < r → r < R + (cellAt d R C).rowSpan → C ≤ c →
        c < C + (cellAt d R C).colSpan → shouldDrawH d r c = false) ∧
      (∀ r c, R ≤ r → r < R + (cellAt d R C).rowSpan → C < c →
        c < C + (cellAt d R C).colSpan → shouldDrawV d c r = false) ∧
      (∀ c, C ≤ c → c < C + (cellAt d R C).colSpan →
        shouldDrawH d R c = true ∧
        shouldDrawH d (R + (cellAt d R C).rowSpan) c = true) ∧
      (∀ r, R ≤ r → r < R + (cellAt d R C).rowSpan →
        shouldDrawV d C r = true ∧
        shouldDrawV d (C + (cellAt d R C).colSpan) r = true)) := by
  refine ⟨fun r c hrle hc => drawH_rule d r c hrle hc,
    fun c r hcle hr => drawV_rule d c r hcle hr,
    fun R C hR hC hh => ⟨?_, ?_, ?_, ?_⟩⟩
  · intro r c h1 h2 h3 h4
    exact drawH_interior d hinv R C hR hC hh r c h1 h2 h3 h4
  · intro r c h1 h2 h3 h4
    exact drawV_interior d hinv R C hR hC hh r c h1 h2 h3 h4
  · intro c h3 h4
    exact ⟨drawH_top d hinv R C hR hC hh c h3 h4,
      drawH_bottom d hinv R C hR hC hh c h3 h4⟩
  · intro r h1 h2
    exact ⟨drawV_left d hinv R C hR hC hh r h1 h2,
      drawV_right d hinv R C hR hC hh r h1 h2⟩

/-- Witness for C1 on the merged 2×2 grid, which satisfies the
hidden/owner and span invariants. -/
theorem line_suppression_witness :
    GridInv grid22merged ∧
    ((∀ r c, r ≤ grid22merged.length → c < colCount grid22merged →
      (shouldDrawH grid22merged r c = true ↔
        (r = 0 ∨ r = grid22merged.length ∨
          ¬(r < (resolveCoords grid22merged (r - 1) c).1 +
              (cellAt grid22merged (resolveCoords grid22merged (r - 1) c).1
                (resolveCoords grid22merged (r - 1) c).2).rowSpan)))) ∧
    (∀ c r, c ≤ colCount grid22merged → r < grid22merged.length →
      (shouldDrawV grid22merged c r = true ↔
        (c = 0 ∨ c = colCount grid22merged ∨
          ¬(c < (resolveCoords grid22merged r (c - 1)).2 +
              (cellAt grid22merged (resolveCoords grid22merged r (c - 1)).1
                (resolveCoords grid22merged r (c - 1)).2).colSpan)))) ∧
    (∀ R C, R < grid22merged.length → C < colCount grid22merged →
      (cellAt grid22merged R C).hidden = false →
      (∀ r c, R < r → r < R + (cellAt grid22merged R C).rowSpan → C ≤ c →
        c < C + (cellAt grid22merged R C).colSpan →
        shouldDrawH grid22merged r c = false) ∧
      (∀ r c, R ≤ r → r < R + (cellAt grid22merged R C).rowSpan → C < c →
        c < C + (cellAt grid22merged R C).colSpan →
        shouldDrawV grid22merged c r = false) ∧
      (∀ c, C ≤ c → c < C + (cellAt grid22merged R C).colSpan →
        shouldDrawH grid22merged R c = true ∧
        shouldDrawH grid22merged (R + (cellAt grid22merged R C).rowSpan) c = true) ∧
      (∀ r, R ≤ r → r < R + (cellAt grid22merged R C).rowSpan →
        shouldDrawV grid22merged C r = true ∧
        shouldDrawV grid22merged (C + (cellAt grid22merged R C).colSpan) r = true))) :=
  ⟨by decide, line_suppression grid22merged (by decide)⟩

/-! ## Render pass determinism (`paths`, `xPositions`, `yPositions` in
`HandDrawnTable`) -/

/-- Cumulative boundary positions: `pos = [0]` then
`sizes.forEach(w => pos.push(pos[pos.length - 1] + w))`. -/
def positionsOf (sizes : List ℚ) : List ℚ :=
  sizes.foldl (fun pos w => pos ++ [pos.getLastD 0 + w]) [0]

/-- One rendered grid-line segment: orientation, loop indices, endpoint
coordinates and the stroke curves (which consume randomness). -/
structure GridSeg where
  horiz : Bool
  gi : Nat
  gj : Nat
  x1 : ℚ
  y1 : ℚ
  x2 : ℚ
  y2 : ℚ
  strokes : List RoughPath

/-- The randomness-free part of a segment: orientation, indices and
endpoints — everything that determines which segment exists and where it
lies. -/
def segKey (s : GridSeg) : Bool × Nat × Nat × ℚ × ℚ × ℚ × ℚ :=
  (s.horiz, s.gi, s.gj, s.x1, s.y1, s.x2, s.y2)

/-- Number of `Math.random()` draws a drawn segment consumes: five for
the primary stroke, five more for the fainter double stroke emitted when
`roughness > 0.5`. -/
def drawCost (cfg : TableConfig) : Nat :=
  if 1 / 2 < cfg.roughness then 10 else 5

/-- Read five consecutive draws from the random stream starting at
position `n`. -/
def takeDraws (σ : Nat → ℚ) (n : Nat) : RandomDraws :=
  ⟨σ n, σ (n + 1), σ (n + 2), σ (n + 3), σ (n + 4)⟩

/-- The stroke list of one drawn segment: the primary rough path and,
when `roughness > 0.5`, a second independent rough path. -/
def segStrokes (m : SketchModel) (cfg : TableConfig) (σ : Nat → ℚ) (n : Nat)
    (x1 y1 x2 y2 : ℚ) : List RoughPath :=
  let p1 := getRoughPath m (takeDraws σ n) x1 y1 x2 y2 cfg.roughness cfg.bowing
  if 1 / 2 < cfg.roughness then
    [p1, getRoughPath m (takeDraws σ (n + 5)) x1 y1 x2 y2 cfg.roughness
      cfg.bowing]
  else [p1]

/-- Iterate the candidate positions in order, appending a segment (and
advancing the random-stream counter) for every candidate whose draw
decision is positive. -/
def buildSegs (cfg : TableConfig) (draw : Nat × Nat → Bool)
    (mk : Nat × Nat → Nat → GridSeg) :
    List (Nat × Nat) → List GridSeg × Nat → List GridSeg × Nat
  | [], acc => acc
  | p :: rest, (segs, n) =>
    if draw p then
      buildSegs cfg draw mk rest (segs ++ [mk p n], n + drawCost cfg)
    else buildSegs cfg draw mk rest (segs, n)

/-- Candidate horizontal segments, row-major as in the code
(`r = 0 … rowCount`, `c = 0 … colCount - 1`). -/
def hCandidates (d : TableData) : List (Nat × Nat) :=
  (List.range (d.length + 1)).flatMap fun r =>
    (List.range (colCount d)).map fun c => (r, c)

/-- Candidate vertical segments (`c = 0 … colCount`,
`r = 0 … rowCount - 1`). -/
def vCandidates (d : TableData) : List (Nat × Nat) :=
  (List.range (colCount d + 1)).flatMap fun c =>
    (List.range d.length).map fun r => (c, r)

/-- Everything one render pass computes: resolved sizes, cumulative
offsets, total extent, and the rendered grid-line segments (the only part
that consumes the random stream `σ`). -/
structure RenderPass where
  colWs : List ℚ
  rowHs : List ℚ
  xPos : List ℚ
  yPos : List ℚ
  totalW : ℚ
  totalH : ℚ
  segs : List GridSeg

/-- One full render pass over grid and configuration, with the random
source modelled as a stream `σ` of draws consumed left to right. -/
def renderPass (m : SketchModel) (d : TableData) (cfg : TableConfig)
    (σ : Nat → ℚ) : RenderPass :=
  let colWs := colWidthsF d cfg
  let rowHs := rowHeightsF d cfg
  let xPos := positionsOf colWs
  let yPos := positionsOf rowHs
  let mkH := fun (p : Nat × Nat) (n : Nat) =>
    ⟨true, p.1, p.2, xPos.getD p.2 0, yPos.getD p.1 0, xPos.getD (p.2 + 1) 0,
      yPos.getD p.1 0,
      segStrokes m cfg σ n (xPos.getD p.2 0) (yPos.getD p.1 0)
        (xPos.getD (p.2 + 1) 0) (yPos.getD p.1 0)⟩
  let mkV := fun (p : Nat × Nat) (n : Nat) =>
    (⟨false, p.1, p.2, xPos.getD p.1 0, yPos.getD p.2 0, xPos.getD p.1 0,
      yPos.getD (p.2 + 1) 0,
      segStrokes m cfg σ n (xPos.getD p.1 0) (yPos.getD p.2 0)
        (xPos.getD p.1 0) (yPos.getD (p.2 + 1) 0)⟩ : GridSeg)
  let hres := buildSegs cfg (fun p => shouldDrawH d p.1 p.2) mkH
    (hCandidates d) ([], 0)
  let vres := buildSegs cfg (fun p => shouldDrawV d p.1 p.2) mkV
    (vCandidates d) hres
  ⟨colWs, rowHs, xPos, yPos, xPos.getLastD 0, yPos.getLastD 0, vres.1⟩

/-- The stripped keys of the built segments are determined by the
candidates, the draw predicate and the key of each constructor output —
never by the random counter. -/
theorem buildSegs_keys (cfg : TableConfig) (draw : Nat × Nat → Bool)
    (mk : Nat × Nat → Nat → GridSeg) (k : Nat × Nat → Bool × Nat × Nat × ℚ × ℚ × ℚ × ℚ)
    (hmk : ∀ p n, segKey (mk p n) = k p) :
    ∀ (ps : List (Nat × Nat)) (segs : List GridSeg) (n : Nat),
      (buildSegs cfg draw mk ps (segs, n)).1.map segKey =
        segs.map segKey ++ (ps.filter draw).map k := by
  intro ps
  induction ps with
  | nil => intro segs n; simp [buildSegs]
  | cons p rest ih =>
    intro segs n
    rw [buildSegs]
    by_cases hd : draw p
    · rw [if_pos hd, ih]
      simp [List.filter_cons, hd, hmk]
    · rw [if_neg hd, ih]
      simp [List.filter_cons, hd]

/-- C9. Two render passes over the same grid and configuration with
different random streams agree on the resolved column widths, row
heights, cumulative offsets and total extent, and produce the same
segments — same orientation, indices and endpoint coordinates — in the
same order: every draw/suppress decision and every boundary coordinate
is fixed before any random value is consumed, and randomness only shapes
the stroke curves. -/
theorem renderPass_deterministic (m : SketchModel) (d : TableData)
    (cfg : TableConfig) (σ σ' : Nat → ℚ) :
    (renderPass m d cfg σ).colWs = (renderPass m d cfg σ').colWs ∧
    (renderPass m d cfg σ).rowHs = (renderPass m d cfg σ').rowHs ∧
    (renderPass m d cfg σ).xPos = (renderPass m d cfg σ').xPos ∧
    (renderPass m d cfg σ).yPos = (renderPass m d cfg σ').yPos ∧
    (renderPass m d cfg σ).totalW = (renderPass m d cfg σ').totalW ∧
    (renderPass m d cfg σ).totalH = (renderPass m d cfg σ').totalH ∧
    (renderPass m d cfg σ).segs.map segKey =
      (renderPass m d cfg σ').segs.map segKey := by
  refine ⟨rfl, rfl, rfl, rfl, rfl, rfl, ?_⟩
  show (renderPass m d cfg σ).segs.map segKey =
    (renderPass m d cfg σ').segs.map segKey
  have hkeys : ∀ τ : Nat → ℚ,
      (renderPass m d cfg τ).segs.map segKey =
        (((hCandidates d).filter fun p => shouldDrawH d p.1 p.2).map fun p =>
            (true, p.1, p.2, (positionsOf (colWidthsF d cfg)).getD p.2 0,
              (positionsOf (rowHeightsF d cfg)).getD p.1 0,
              (positionsOf (colWidthsF d cfg)).getD (p.2 + 1) 0,
              (positionsOf (rowHeightsF d cfg)).getD p.1 0)) ++
          ((vCandidates d).filter fun p => shouldDrawV d p.1 p.2).map fun p =>
            (false, p.1, p.2, (positionsOf (colWidthsF d cfg)).getD p.1 0,
              (positionsOf (rowHeightsF d cfg)).getD p.2 0,
              (positionsOf (colWidthsF d cfg)).getD p.1 0,
              (positionsOf (rowHeightsF d cfg)).getD (p.2 + 1) 0) := by
    intro τ
    show (buildSegs cfg (fun p => shouldDrawV d p.1 p.2) _ (vCandidates d)
        (buildSegs cfg (fun p => shouldDrawH d p.1 p.2) _ (hCandidates d)
          ([], 0))).1.map segKey = _
    rcases hhres : buildSegs cfg (fun p => shouldDrawH d p.1 p.2) _
      (hCandidates d) ([], 0) with ⟨hsegs, n1⟩
    have hv := buildSegs_keys cfg (fun p => shouldDrawV d p.1 p.2)
      (fun p n =>
        (⟨false, p.1, p.2, (positionsOf (colWidthsF d cfg)).getD p.1 0,
          (positionsOf (rowHeightsF d cfg)).getD p.2 0,
          (positionsOf (colWidthsF d cfg)).getD p.1 0,
          (positionsOf (rowHeightsF d cfg)).getD (p.2 + 1) 0,
          segStrokes m cfg τ n ((positionsOf (colWidthsF d cfg)).getD p.1 0)
            ((positionsOf (rowHeightsF d cfg)).getD p.2 0)
            ((positionsOf (colWidthsF d cfg)).getD p.1 0)
            ((positionsOf (rowHeightsF d cfg)).getD (p.2 + 1) 0)⟩ : GridSeg))
      (fun p => (false, p.1, p.2, (positionsOf (colWidthsF d cfg)).getD p.1 0,
        (positionsOf (rowHeightsF d cfg)).getD p.2 0,
        (positionsOf (colWidthsF d cfg)).getD p.1 0,
        (positionsOf (rowHeightsF d cfg)).getD (p.2 + 1) 0))
      (fun p n => rfl) (vCandidates d) hsegs n1
    rw [hv]
    have hh := buildSegs_keys cfg (fun p => shouldDrawH d p.1 p.2)
      (fun p n =>
        (⟨true, p.1, p.2, (positionsOf (colWidthsF d cfg)).getD p.2 0,
          (positionsOf (rowHeightsF d cfg)).getD p.1 0,
          (positionsOf (colWidthsF d cfg)).getD (p.2 + 1) 0,
          (positionsOf (rowHeightsF d cfg)).getD p.1 0,
          segStrokes m cfg τ n ((positionsOf (colWidthsF d cfg)).getD p.2 0)
            ((positionsOf (rowHeightsF d cfg)).getD p.1 0)
            ((positionsOf (colWidthsF d cfg)).getD (p.2 + 1) 0)
            ((positionsOf (rowHeightsF d cfg)).getD p.1 0)⟩ : GridSeg))
      (fun p => (true, p.1, p.2, (positionsOf (colWidthsF d cfg)).getD p.2 0,
        (positionsOf (rowHeightsF d cfg)).getD p.1 0,
        (positionsOf (colWidthsF d cfg)).getD (p.2 + 1) 0,
        (positionsOf (rowHeightsF d cfg)).getD p.1 0))
      (fun p n => rfl) (hCandidates d) [] 0
    rw [hhres] at hh
    simp only [List.map_nil, List.nil_append] at hh
    rw [hh]
  rw [hkeys σ, hkeys σ']
